import Mathlib

/-!
# jaakidup/network : local IPv4 discovery and concurrent TCP port scanner

A shallow embedding of `network.go`.

* `getLocalIPAddresses` is a sequential loop over the interface table handed
  out by the operating system (`net.Interfaces`, `Interface.Addrs`).
* `TCPScanner` spawns one goroutine per port.  It is embedded as an
  interleaving state machine: one main thread and one thread per launched
  goroutine, each with a program counter, sharing the `ports` slice, the
  mutex and the wait-group counter.  A scheduler (a function `Nat → Nat`)
  chooses at every step which enabled thread moves.
  Steps are atomic and sequentially consistent; `ports = append(ports, port)`
  is two steps, the read of the slice and the write-back, so that an
  unprotected append could lose an update.
* Go `int` is a 64-bit two's-complement integer; `port++` wraps.
-/

namespace NetScan

/-! ## Go integers -/

/-- Largest value of a Go `int` on a 64-bit target. -/
def maxInt : Int := 9223372036854775807

/-- Smallest value of a Go `int` on a 64-bit target. -/
def minInt : Int := -9223372036854775808

/-- Values representable in a Go `int`. -/
def IsInt (x : Int) : Prop := minInt ≤ x ∧ x ≤ maxInt

instance (x : Int) : Decidable (IsInt x) := by unfold IsInt; infer_instance

/-- Two's-complement wrap-around of an arithmetic result into a Go `int`. -/
def wrapInt (x : Int) : Int := (x + 9223372036854775808) % 18446744073709551616 - 9223372036854775808

/-- One `time.Second`, in nanoseconds (`time.Duration` is an `int64`). -/
def Second : Int := 1000000000

/-! ## The operating-system collaborators -/

/-- Outcome of `net.DialTimeout(network, address, timeout)`: `true` when the
returned error is `nil`. -/
abbrev Dial := String → String → Int → Bool

/-- A `net.IP`: a byte slice (`[]` is the nil IP). -/
abbrev IP := List Nat

/-- The dynamic type of a `net.Addr` value. -/
inductive Addr where
  | IPNet (ip : IP) (mask : List Nat)
  | IPAddr (ip : IP) (zone : String)
  | other
deriving DecidableEq

/-- A `net.Interface` together with the outcome of its `Addrs()` call
(`none` when the call returns an error). -/
structure Interface where
  Flags : Nat
  Addrs : Option (List Addr)
deriving DecidableEq

/-- Constant `net.FlagUp`. -/
def FlagUp : Nat := 1

/-- Constant `net.FlagLoopback`. -/
def FlagLoopback : Nat := 4

/-- Method `net.IP.To4`: the 4-byte form of an IPv4 address, `none` for nil. -/
def To4 (ip : IP) : Option IP :=
  if ip.length = 4 then some ip
  else if ip.length = 16 ∧ (ip.take 10).all (fun b => b == 0) ∧ ip.getD 10 0 = 255
      ∧ ip.getD 11 0 = 255 then
    some (ip.drop 12)
  else none

/-- Method `net.IP.String` on a 4-byte address: dotted decimal. -/
def IPString (ip : IP) : String :=
  ".".intercalate (ip.map fun b => toString b)

/-! ## The data model -/

/-- A Go `[]int` value as returned by a function: `none` is the nil slice. -/
abbrev IntSlice := Option (List Int)

/-- The elements of a slice; the nil slice has none. -/
def IntSlice.elems (s : IntSlice) : List Int := s.getD []

/-- Struct `Network`; the map is kept as an association list with one entry
per key. -/
structure Network where
  MyIPAddresses : List String
  IPsAndPorts : List (String × IntSlice)
deriving DecidableEq

/-- Map assignment `m[k] = v`. -/
def mapAssign (m : List (String × IntSlice)) (k : String) (v : IntSlice) :
    List (String × IntSlice) :=
  (k, v) :: m.filter (fun e => e.1 ≠ k)

/-! ## getLocalIPAddresses -/

/-- The inner loop of `getLocalIPAddresses` over the addresses of one
interface, appending to `ipAddresses`. -/
def addressLoop (ipAddresses : List String) : List Addr → List String
  | [] => ipAddresses
  | address :: rest =>
    let ip : IP :=
      match address with
      | .IPNet ip _ => ip
      | .IPAddr ip _ => ip
      | .other => []
    match To4 ip with
    | none => addressLoop ipAddresses rest
    | some ip => addressLoop (ipAddresses ++ [IPString ip]) rest

/-- The outer loop of `getLocalIPAddresses` over the interfaces; an error
leaves the loop at once. -/
def interfaceLoop (ipAddresses : List String) : List Interface → Except String (List String)
  | [] => .ok ipAddresses
  | interf :: rest =>
    if interf.Flags &&& FlagUp = 0 then interfaceLoop ipAddresses rest
    else if interf.Flags &&& FlagLoopback ≠ 0 then interfaceLoop ipAddresses rest
    else
      match interf.Addrs with
      | none => .error "Couldn't fetch inface addresses"
      | some addresses => interfaceLoop (addressLoop ipAddresses addresses) rest

/-- Method `getLocalIPAddresses`.  `interfaces` is the outcome of
`net.Interfaces()` (`none` when it returns an error).  Returns the updated
receiver and the error (`none` is nil). -/
def getLocalIPAddresses (interfaces : Option (List Interface)) (network : Network) :
    Network × Option String :=
  match interfaces with
  | none => (network, some "No network interfaces available")
  | some interfaces =>
    match interfaceLoop [] interfaces with
    | .error e => (network, some e)
    | .ok ipAddresses =>
      if ipAddresses.length = 0 then (network, some "No ipAddresses available")
      else ({ network with MyIPAddresses := ipAddresses }, none)

/-! ## OpenPort -/

/-- Method `OpenPort`: dial `host:port`; open when the dial succeeds. -/
def OpenPort (dial : Dial) (host : String) (port : Int) (timeout : Int) : Bool :=
  let connString := host ++ ":" ++ toString port
  dial "tcp" connString timeout

/-! ## TCPScanner as an interleaving machine -/

/-- Program counter of one probe goroutine (the `go func` body). -/
inductive ProbePc where
  /-- about to evaluate `network.OpenPort(host, port, timeout)` -/
  | call
  /-- the port is open; about to `mutex.Lock()` -/
  | lock
  /-- holds the mutex; about to read `ports` for the `append` -/
  | load
  /-- holds the mutex; about to write `append(snap, port)` back to `ports` -/
  | store (snap : List Int)
  /-- holds the mutex; about to `mutex.Unlock()` -/
  | unlock
  /-- about to `waitGroup.Done()` -/
  | done
  /-- the goroutine has finished -/
  | exited
deriving DecidableEq

/-- One launched goroutine: its `port` argument and where it stands. -/
structure Probe where
  port : Int
  pc : ProbePc
deriving DecidableEq

/-- Program counter of the thread that runs `TCPScanner` itself. -/
inductive MainPc where
  /-- at the loop test `port <= endPort` -/
  | loop (port : Int)
  /-- at `waitGroup.Wait()` -/
  | wait
  /-- the call has returned `(ports, err)` -/
  | returned (ports : IntSlice) (err : Option String)
deriving DecidableEq

/-- The state shared by the threads of one `TCPScanner` call.  `mutex` is
`some i` while goroutine `i` (in launch order) holds it; `dialed` logs the
ports on which `OpenPort` has been called. -/
structure ScanState where
  main : MainPc
  probes : List Probe
  ports : List Int
  mutex : Option Nat
  waitGroup : Int
  dialed : List Int
deriving DecidableEq

/-- What stays fixed during one scan: the network, the goroutine arguments
`host` and `timeout`, and `endPort` after defaulting. -/
structure ScanCfg where
  dial : Dial
  host : String
  endPort : Int
  timeout : Int

/-- One step of the main thread: a loop iteration (`waitGroup.Add(1)`, the
`go` statement, `port++`), the loop exit, or `waitGroup.Wait()` returning
once the counter is zero. -/
def stepMain (cfg : ScanCfg) (s : ScanState) : Option ScanState :=
  match s.main with
  | .loop port =>
    if port ≤ cfg.endPort then
      some { s with
        waitGroup := s.waitGroup + 1
        probes := s.probes ++ [{ port := port, pc := .call }]
        main := .loop (wrapInt (port + 1)) }
    else some { s with main := .wait }
  | .wait =>
    if s.waitGroup = 0 then some { s with main := .returned (some s.ports) none }
    else none
  | .returned _ _ => none

/-- One step of goroutine `i`; `none` when it is blocked or has finished. -/
def stepProbe (cfg : ScanCfg) (s : ScanState) (i : Nat) : Option ScanState :=
  match s.probes[i]? with
  | none => none
  | some pr =>
    match pr.pc with
    | .call =>
      some { s with
        dialed := s.dialed ++ [pr.port]
        probes := s.probes.set i
          { pr with pc := if OpenPort cfg.dial cfg.host pr.port cfg.timeout then .lock else .done } }
    | .lock =>
      match s.mutex with
      | none => some { s with mutex := some i, probes := s.probes.set i { pr with pc := .load } }
      | some _ => none
    | .load => some { s with probes := s.probes.set i { pr with pc := .store s.ports } }
    | .store snap =>
      some { s with ports := snap ++ [pr.port], probes := s.probes.set i { pr with pc := .unlock } }
    | .unlock => some { s with mutex := none, probes := s.probes.set i { pr with pc := .done } }
    | .done =>
      some { s with waitGroup := s.waitGroup - 1, probes := s.probes.set i { pr with pc := .exited } }
    | .exited => none

/-- Thread `0` is the main thread, thread `i + 1` is goroutine `i`. -/
def stepThread (cfg : ScanCfg) (s : ScanState) : Nat → Option ScanState
  | 0 => stepMain cfg s
  | i + 1 => stepProbe cfg s i

/-- The threads that can move in `s`. -/
def enabledThreads (cfg : ScanCfg) (s : ScanState) : List Nat :=
  (List.range (s.probes.length + 1)).filter fun t => (stepThread cfg s t).isSome

/-- One scheduler step: choice `c` picks one of the enabled threads; a state
in which no thread can move is left as it is. -/
def step (cfg : ScanCfg) (s : ScanState) (c : Nat) : ScanState :=
  let ts := enabledThreads cfg s
  match stepThread cfg s (ts.getD (c % ts.length) 0) with
  | some s' => s'
  | none => s

/-- The state after `n` scheduler steps under schedule `sched`. -/
def runFor (cfg : ScanCfg) (sched : Nat → Nat) (s : ScanState) : Nat → ScanState
  | 0 => s
  | n + 1 => step cfg (runFor cfg sched s n) (sched n)

/-- The `if endPort == 0` block of `TCPScanner`: an end port of 0 stands
for 65535. -/
def lastPort (endPort : Int) : Int :=
  if endPort = 0 then 65535 else endPort

/-- The state in which the loop of `TCPScanner` is entered: `ports := []int{}`,
a fresh wait group and mutex, `port := startPort`. -/
def scanInit (startPort : Int) : ScanState :=
  { main := .loop startPort, probes := [], ports := [], mutex := none, waitGroup := 0,
    dialed := [] }

/-- The state of a `TCPScanner` call after `n` scheduler steps. -/
def scanAfter (n : Nat) (dial : Dial) (sched : Nat → Nat) (host : String)
    (startPort endPort timeout : Int) : ScanState :=
  if host = "" then
    { main := .returned none (some "No host to search"), probes := [], ports := [],
      mutex := none, waitGroup := 0, dialed := [] }
  else
    let endPort := lastPort endPort
    runFor { dial := dial, host := host, endPort := endPort, timeout := timeout } sched
      (scanInit startPort) n

/-- What the call has returned in state `s`, if it has returned. -/
def outcome (s : ScanState) : Option (IntSlice × Option String) :=
  match s.main with
  | .returned ports err => some (ports, err)
  | _ => none

/-- Number of scheduler steps after which a scan of `startPort..endPort` is
over: two for the main thread, and seven per port (one loop iteration and
the six goroutine steps). -/
def scanFuel (startPort endPort : Int) : Nat :=
  2 + 7 * (endPort + 1 - startPort).toNat

/-- Method `TCPScanner` under schedule `sched`: the returned pair, or `none`
when the call does not return. -/
def TCPScanner (dial : Dial) (sched : Nat → Nat) (host : String)
    (startPort endPort timeout : Int) : Option (IntSlice × Option String) :=
  outcome (scanAfter (scanFuel startPort (lastPort endPort))
    dial sched host startPort endPort timeout)

/-- Method `ScanHost`. -/
def ScanHost (dial : Dial) (sched : Nat → Nat) (host : String) :
    Option (IntSlice × Option String) :=
  match TCPScanner dial sched host 0 65535 (2 * Second) with
  | none => none
  | some (ports, err) =>
    match err with
    | some e => some (none, some e)
    | none => some (ports, none)

/-! ## NewNetwork -/

/-- The circumstances of one `ScanHost` call: the state of the network and
the order in which the goroutines are scheduled. -/
structure ScanEnv where
  dial : Dial
  sched : Nat → Nat

/-- The `for _, address := range nw.MyIPAddresses` loop of `NewNetwork`; the
`k`-th scan runs in `env k`.  Returns the network and the hosts scanned. -/
def scanLoop (env : Nat → ScanEnv) : Nat → List String → Network → List String →
    Option (Network × List String)
  | _, [], nw, scanned => some (nw, scanned)
  | k, address :: rest, nw, scanned =>
    match ScanHost (env k).dial (env k).sched address with
    | none => none
    | some (ports, _) =>
      scanLoop env (k + 1) rest
        { nw with IPsAndPorts := mapAssign nw.IPsAndPorts address ports } (scanned ++ [address])

/-- Function `NewNetwork`, together with the list of hosts it has scanned. -/
def NewNetworkTrace (interfaces : Option (List Interface)) (env : Nat → ScanEnv) :
    Option (Network × List String) :=
  let nw : Network := { MyIPAddresses := [], IPsAndPorts := [] }
  let nw := (getLocalIPAddresses interfaces nw).1
  scanLoop env 0 nw.MyIPAddresses nw []

/-- Function `NewNetwork`. -/
def NewNetwork (interfaces : Option (List Interface)) (env : Nat → ScanEnv) : Option Network :=
  (NewNetworkTrace interfaces env).map Prod.fst

/-! ## Specification-side definitions -/

/-- The ports `a, a + 1, ..., b - 1`, ascending. -/
def portRange (a b : Int) : List Int :=
  (List.range (b - a).toNat).map fun (k : Nat) => a + (k : Int)

/-- The open ports among `startPort..endPort`, ascending. -/
def openPortsAscending (dial : Dial) (host : String) (startPort endPort timeout : Int) :
    List Int :=
  (portRange startPort (endPort + 1)).filter fun p => OpenPort dial host p timeout

/-- An interface that is up and not loopback. -/
def Interface.usable (i : Interface) : Bool :=
  i.Flags &&& FlagUp ≠ 0 && i.Flags &&& FlagLoopback = 0

/-- The dotted-decimal string of an address that converts to IPv4. -/
def Addr.ipv4String : Addr → Option String
  | .IPNet ip _ => (To4 ip).map IPString
  | .IPAddr ip _ => (To4 ip).map IPString
  | .other => none

/-- In interface order then address order, the dotted-decimal strings of the
addresses that convert to IPv4 and belong to a usable interface. -/
def localIPv4 (interfaces : List Interface) : List String :=
  (interfaces.filter Interface.usable).flatMap fun i =>
    (i.Addrs.getD []).filterMap Addr.ipv4String

/-- The keys of the map. -/
def mapKeys (m : List (String × IntSlice)) : List String := m.map Prod.fst

/-! ## Sample environments -/

/-- A network on which every dial succeeds. -/
def allOpen : Dial := fun _ _ _ => true

/-- A network on which every dial fails. -/
def allClosed : Dial := fun _ _ _ => false

/-- The scheduler that always moves the first enabled thread. -/
def firstEnabled : Nat → Nat := fun _ => 0

/-- A scheduler under which, of two goroutines, the second runs to its end
before the first starts. -/
def secondFirst : Nat → Nat := fun k => [0, 0, 0, 1, 1, 1, 1, 1, 1].getD k 0

/-- A machine with a loopback interface on 127.0.0.1 and an active Ethernet
interface bound to 192.168.1.10 and to an IPv6 link-local address. -/
def sampleInterfaces : List Interface :=
  [ { Flags := 5, Addrs := some [.IPNet [127, 0, 0, 1] [255, 0, 0, 0]] },
    { Flags := 19, Addrs := some [.IPNet [192, 168, 1, 10] [255, 255, 255, 0],
        .IPNet [254, 128, 0, 0, 0, 0, 0, 0, 0, 0, 0, 0, 0, 0, 0, 1] []] } ]

/-! ## Invariants of the scan machine -/

/-- The program points between `mutex.Lock()` and `mutex.Unlock()`. -/
def critical : ProbePc → Bool
  | .load => true
  | .store _ => true
  | .unlock => true
  | _ => false

/-- The program points reached only after `OpenPort` returned `true` and
before the mutex is released. -/
def passed : ProbePc → Bool
  | .lock => true
  | .load => true
  | .store _ => true
  | .unlock => true
  | _ => false

/-- Goroutines that have not yet called `waitGroup.Done()`. -/
def live (pr : Probe) : Bool :=
  match pr.pc with
  | .exited => false
  | _ => true

/-- Goroutines whose `append` has been written back. -/
def appended (cfg : ScanCfg) (pr : Probe) : Bool :=
  match pr.pc with
  | .unlock => true
  | .done => OpenPort cfg.dial cfg.host pr.port cfg.timeout
  | .exited => OpenPort cfg.dial cfg.host pr.port cfg.timeout
  | _ => false

/-- Steps a goroutine still has to take. -/
def remaining : ProbePc → Nat
  | .call => 6
  | .lock => 5
  | .load => 4
  | .store _ => 3
  | .unlock => 2
  | .done => 1
  | .exited => 0

/-- Steps the main thread still has to take or to cause. -/
def mainRemaining (cfg : ScanCfg) : MainPc → Nat
  | .loop p => 2 + 7 * (cfg.endPort + 1 - p).toNat
  | .wait => 1
  | .returned _ _ => 0

/-- Steps goroutine `pr` still has to take. -/
def probeCost (pr : Probe) : Nat := remaining pr.pc

/-- Termination measure of the scan machine. -/
def stepsLeft (cfg : ScanCfg) (s : ScanState) : Nat :=
  mainRemaining cfg s.main + (s.probes.map probeCost).sum

/-- Once the call has returned, it has returned the shared slice with a nil
error, and every goroutine has finished. -/
def ReturnedOk (s : ScanState) : Prop :=
  match s.main with
  | .returned ps err =>
    ps = some s.ports ∧ err = none ∧
      ∀ (j : Nat) (pr : Probe), s.probes[j]? = some pr → pr.pc = .exited
  | _ => True

/-- The synchronisation invariant: it holds in every reachable state of every
scan. -/
structure SyncInv (cfg : ScanCfg) (s : ScanState) : Prop where
  counter : s.waitGroup = (s.probes.countP live : Nat)
  holder : ∀ (j : Nat) (pr : Probe), s.probes[j]? = some pr →
    (critical pr.pc = true ↔ s.mutex = some j)
  held : ∀ j, s.mutex = some j → j < s.probes.length
  snap : ∀ (j : Nat) (pr : Probe), s.probes[j]? = some pr →
    ∀ (l : List Int), pr.pc = .store l → l = s.ports
  is_open : ∀ (j : Nat) (pr : Probe), s.probes[j]? = some pr → passed pr.pc = true →
    OpenPort cfg.dial cfg.host pr.port cfg.timeout = true
  ret : ReturnedOk s

/-- What the main thread's program counter says about the goroutines
launched so far. -/
def LoopOk (cfg : ScanCfg) (startPort : Int) (s : ScanState) : Prop :=
  match s.main with
  | .loop p => p = startPort + s.probes.length ∧ (s.probes.length = 0 ∨ p ≤ cfg.endPort + 1)
  | _ => s.probes.length = (cfg.endPort + 1 - startPort).toNat

/-- The inductive invariant of a scan started at `startPort` whose loop
counter does not wrap. -/
structure Inv (cfg : ScanCfg) (startPort : Int) (s : ScanState) : Prop where
  sync : SyncInv cfg s
  port_of : ∀ (j : Nat) (pr : Probe), s.probes[j]? = some pr → pr.port = startPort + j
  loop_ok : LoopOk cfg startPort s
  nodup : s.ports.Nodup
  mem_ports : ∀ p, p ∈ s.ports ↔
    ∃ (j : Nat) (pr : Probe), s.probes[j]? = some pr ∧ pr.port = p ∧ appended cfg pr = true

/-! ### List bookkeeping -/

theorem getElem?_set_some {α : Type} {l : List α} {i j : Nat} {a x y : α}
    (h : l[i]? = some a) :
    (l.set i x)[j]? = some y ↔ (j = i ∧ y = x) ∨ (j ≠ i ∧ l[j]? = some y) := by
  have hi : i < l.length := (List.getElem?_eq_some.1 h).1
  rw [List.getElem?_set]
  by_cases hij : i = j
  · subst hij
    simp [hi, eq_comm]
  · have hji : j ≠ i := fun e => hij e.symm
    simp [hij, hji]

theorem getElem?_snoc_some {α : Type} {l : List α} {j : Nat} {x y : α} :
    (l ++ [x])[j]? = some y ↔ l[j]? = some y ∨ (j = l.length ∧ y = x) := by
  rw [List.getElem?_append]
  by_cases hj : j < l.length
  · simp [hj]
    omega
  · simp only [hj, if_false]
    have hn : l[j]? = none := List.getElem?_eq_none (by omega)
    rw [hn]
    by_cases hjl : j = l.length
    · subst hjl
      simp [eq_comm]
    · have : j - l.length ≠ 0 := by omega
      obtain ⟨k, hk⟩ := Nat.exists_eq_succ_of_ne_zero this
      simp [hk, hjl]

theorem set_split {α : Type} {l : List α} {i : Nat} {a : α} (h : l[i]? = some a) :
    ∃ pre post, l = pre ++ a :: post ∧ ∀ x, l.set i x = pre ++ x :: post := by
  induction l generalizing i with
  | nil => simp at h
  | cons b t ih =>
    cases i with
    | zero =>
      simp at h
      subst h
      exact ⟨[], t, rfl, fun x => rfl⟩
    | succ k =>
      simp at h
      obtain ⟨pre, post, h1, h2⟩ := ih h
      refine ⟨b :: pre, post, by simp [h1], fun x => ?_⟩
      simp [List.set, h2 x]

theorem wrapInt_of_isInt {x : Int} (h : IsInt x) : wrapInt x = x := by
  unfold IsInt minInt maxInt at h
  unfold wrapInt
  omega

theorem isInt_wrapInt (x : Int) : IsInt (wrapInt x) := by
  unfold IsInt minInt maxInt wrapInt
  omega

/-! ### The invariants hold initially and are kept by every step -/

theorem sync_init (cfg : ScanCfg) (startPort : Int) : SyncInv cfg (scanInit startPort) := by
  refine ⟨?_, ?_, ?_, ?_, ?_, ?_⟩ <;> simp [scanInit, ReturnedOk]

theorem inv_init (cfg : ScanCfg) (startPort : Int) : Inv cfg startPort (scanInit startPort) := by
  refine ⟨sync_init cfg startPort, ?_, ?_, ?_, ?_⟩ <;> simp [scanInit, LoopOk]

theorem exited_of_countP_zero {l : List Probe} (h : l.countP live = 0) (j : Nat) (pr : Probe)
    (hj : l[j]? = some pr) : pr.pc = .exited := by
  have hmem : pr ∈ l := List.mem_iff_getElem?.2 ⟨j, hj⟩
  have := (List.countP_eq_zero.1 h) pr hmem
  unfold live at this
  cases hpc : pr.pc <;> simp [hpc] at this
  rfl

theorem sync_stepMain {cfg : ScanCfg} {s s' : ScanState} (h : SyncInv cfg s)
    (hstep : stepMain cfg s = some s') : SyncInv cfg s' := by
  unfold stepMain at hstep
  cases hmain : s.main with
  | loop p =>
    rw [hmain] at hstep
    simp only at hstep
    by_cases hpe : p ≤ cfg.endPort
    · rw [if_pos hpe] at hstep
      cases hstep
      refine ⟨?_, ?_, ?_, ?_, ?_, ?_⟩
      · simp [List.countP_append, List.countP_cons, live, h.counter]
      · intro j pr hj
        rcases getElem?_snoc_some.1 hj with h1 | ⟨h1, h2⟩
        · exact h.holder j pr h1
        · subst h2; subst h1
          simp only [critical, Bool.false_eq_true, false_iff]
          intro hmu
          exact absurd (h.held _ hmu) (by omega)
      · intro j hmu
        have := h.held j hmu
        simp only [List.length_append, List.length_singleton]
        omega
      · intro j pr hj l hpc
        rcases getElem?_snoc_some.1 hj with h1 | ⟨h1, h2⟩
        · exact h.snap j pr h1 l hpc
        · subst h2; simp at hpc
      · intro j pr hj hpass
        rcases getElem?_snoc_some.1 hj with h1 | ⟨h1, h2⟩
        · exact h.is_open j pr h1 hpass
        · subst h2; simp [passed] at hpass
      · simp [ReturnedOk]
    · rw [if_neg hpe] at hstep
      cases hstep
      exact ⟨h.counter, h.holder, h.held, h.snap, h.is_open, by simp [ReturnedOk]⟩
  | wait =>
    rw [hmain] at hstep
    simp only at hstep
    by_cases hw : s.waitGroup = 0
    · rw [if_pos hw] at hstep
      cases hstep
      refine ⟨h.counter, h.holder, h.held, h.snap, h.is_open, ?_⟩
      simp only [ReturnedOk]
      refine ⟨trivial, trivial, ?_⟩
      have hc := h.counter
      rw [hw] at hc
      exact exited_of_countP_zero (by exact_mod_cast hc.symm)
    · rw [if_neg hw] at hstep
      cases hstep
  | returned ps err =>
    rw [hmain] at hstep
    cases hstep

theorem inv_stepMain {cfg : ScanCfg} {startPort : Int} {s s' : ScanState}
    (hs : IsInt startPort) (he : cfg.endPort < maxInt) (h : Inv cfg startPort s)
    (hstep : stepMain cfg s = some s') : Inv cfg startPort s' := by
  have hsync := sync_stepMain h.sync hstep
  have hm := h.loop_ok
  unfold LoopOk at hm
  unfold stepMain at hstep
  cases hmain : s.main with
  | loop p =>
    rw [hmain] at hm hstep
    simp only at hm hstep
    obtain ⟨hp, hle⟩ := hm
    by_cases hpe : p ≤ cfg.endPort
    · rw [if_pos hpe] at hstep
      cases hstep
      have hw : wrapInt (p + 1) = p + 1 := by
        apply wrapInt_of_isInt
        unfold IsInt minInt maxInt at *
        omega
      refine ⟨hsync, ?_, ?_, h.nodup, ?_⟩
      · intro j pr hj
        rcases getElem?_snoc_some.1 hj with h1 | ⟨h1, h2⟩
        · exact h.port_of j pr h1
        · subst h2; subst h1; exact hp
      · simp only [LoopOk, hw, List.length_append, List.length_singleton]
        constructor
        · push_cast; omega
        · right; omega
      · intro q
        rw [h.mem_ports q]
        constructor
        · rintro ⟨j, pr, h1, h2, h3⟩
          exact ⟨j, pr, getElem?_snoc_some.2 (Or.inl h1), h2, h3⟩
        · rintro ⟨j, pr, h1, h2, h3⟩
          rcases getElem?_snoc_some.1 h1 with h4 | ⟨h4, h5⟩
          · exact ⟨j, pr, h4, h2, h3⟩
          · subst h5; simp [appended] at h3
    · rw [if_neg hpe] at hstep
      cases hstep
      refine ⟨hsync, h.port_of, ?_, h.nodup, h.mem_ports⟩
      simp only [LoopOk]
      omega
  | wait =>
    rw [hmain] at hm hstep
    simp only at hm hstep
    by_cases hw : s.waitGroup = 0
    · rw [if_pos hw] at hstep
      cases hstep
      refine ⟨hsync, h.port_of, ?_, h.nodup, h.mem_ports⟩
      simp only [LoopOk]
      exact hm
    · rw [if_neg hw] at hstep
      cases hstep
  | returned ps err =>
    rw [hmain] at hstep
    cases hstep

theorem forall_set {l : List Probe} {i : Nat} {pr x : Probe} (hi : l[i]? = some pr)
    {P : Nat → Probe → Prop} (hnew : P i x)
    (hold : ∀ (j : Nat) (q : Probe), j ≠ i → l[j]? = some q → P j q) :
    ∀ (j : Nat) (q : Probe), (l.set i x)[j]? = some q → P j q := by
  intro j q hj
  rcases (getElem?_set_some hi).1 hj with ⟨h1, h2⟩ | ⟨h1, h2⟩
  · subst h1; subst h2; exact hnew
  · exact hold j q h1 h2

theorem returnedOk_update {s s' : ScanState} {i : Nat} {pr : Probe}
    (h : ReturnedOk s) (hi : s.probes[i]? = some pr)
    (hne : pr.pc ≠ .exited) (hmain : s'.main = s.main) : ReturnedOk s' := by
  unfold ReturnedOk at *
  rw [hmain]
  cases hm : s.main with
  | loop p => trivial
  | wait => trivial
  | returned ps err =>
    rw [hm] at h
    exact absurd (h.2.2 i pr hi) hne

theorem loopOk_update {cfg : ScanCfg} {startPort : Int} {s s' : ScanState} {i : Nat}
    {x : Probe} (h : LoopOk cfg startPort s) (hmain : s'.main = s.main)
    (hpr : s'.probes = s.probes.set i x) : LoopOk cfg startPort s' := by
  unfold LoopOk at *
  rw [hmain, hpr]
  cases hm : s.main <;> rw [hm] at h <;> simpa using h

theorem countP_live_set {l : List Probe} {i : Nat} {pr : Probe} (x : Probe)
    (hi : l[i]? = some pr) :
    (l.set i x).countP live + (if live pr then 1 else 0)
      = l.countP live + (if live x then 1 else 0) := by
  obtain ⟨pre, post, h1, h2⟩ := set_split hi
  rw [h2 x, h1]
  simp only [List.countP_append, List.countP_cons]
  omega

theorem exists_appended_set (cfg : ScanCfg) {l : List Probe} {i : Nat} {pr x : Probe}
    (hi : l[i]? = some pr) (hport : x.port = pr.port)
    (happ : appended cfg x = appended cfg pr) (p : Int) :
    (∃ (j : Nat) (q : Probe), (l.set i x)[j]? = some q ∧ q.port = p ∧ appended cfg q = true) ↔
      (∃ (j : Nat) (q : Probe), l[j]? = some q ∧ q.port = p ∧ appended cfg q = true) := by
  constructor
  · rintro ⟨j, q, h1, h2, h3⟩
    rcases (getElem?_set_some hi).1 h1 with ⟨h4, h5⟩ | ⟨h4, h5⟩
    · subst h4; subst h5
      exact ⟨j, pr, hi, by rw [← hport]; exact h2, by rw [← happ]; exact h3⟩
    · exact ⟨j, q, h5, h2, h3⟩
  · rintro ⟨j, q, h1, h2, h3⟩
    by_cases hji : j = i
    · subst hji
      rw [hi] at h1
      cases h1
      exact ⟨j, x, (getElem?_set_some hi).2 (Or.inl ⟨rfl, rfl⟩), by rw [hport]; exact h2,
        by rw [happ]; exact h3⟩
    · exact ⟨j, q, (getElem?_set_some hi).2 (Or.inr ⟨hji, h1⟩), h2, h3⟩

theorem sync_stepProbe {cfg : ScanCfg} {s s' : ScanState} {i : Nat}
    (h : SyncInv cfg s) (hstep : stepProbe cfg s i = some s') : SyncInv cfg s' := by
  unfold stepProbe at hstep
  cases hi : s.probes[i]? with
  | none => rw [hi] at hstep; cases hstep
  | some pr =>
    rw [hi] at hstep
    simp only at hstep
    have hcrit := h.holder i pr hi
    have hcnt := h.counter
    cases hpc : pr.pc with
    | call =>
      rw [hpc] at hstep hcrit
      simp only at hstep
      cases hstep
      refine ⟨?_, ?_, ?_, ?_, ?_, ?_⟩
      · have := countP_live_set
          { pr with pc := if OpenPort cfg.dial cfg.host pr.port cfg.timeout then .lock else .done }
          hi
        simp only [live, hpc] at this
        simp only
        split at this <;> simp_all
      · refine forall_set hi ?_ (fun j q _ hq => h.holder j q hq)
        simp only [critical] at hcrit
        simp only
        split <;> simpa [critical] using hcrit
      · intro j hj
        simpa using h.held j hj
      · refine forall_set hi ?_ (fun j q _ hq => h.snap j q hq)
        intro l
        simp only
        split <;> simp
      · refine forall_set hi ?_ (fun j q _ hq => h.is_open j q hq)
        simp only
        split
        · intro _; assumption
        · simp [passed]
      · exact returnedOk_update h.ret hi (by simp [hpc]) rfl
    | lock =>
      rw [hpc] at hstep hcrit
      simp only at hstep
      cases hmu : s.mutex with
      | some k => rw [hmu] at hstep; cases hstep
      | none =>
        rw [hmu] at hstep
        cases hstep
        refine ⟨?_, ?_, ?_, ?_, ?_, ?_⟩
        · have := countP_live_set { pr with pc := .load } hi
          simp only [live, hpc] at this
          simp only
          rw [hcnt]
          omega
        · refine forall_set hi (by simp [critical]) (fun j q hji hq => ?_)
          have := h.holder j q hq
          rw [hmu] at this
          simp only [Option.some.injEq]
          constructor
          · intro hc; exact absurd (this.1 hc) (by simp)
          · intro hij; exact absurd hij.symm hji
        · intro j hj
          simp only [Option.some.injEq] at hj
          subst hj
          simpa using (List.getElem?_eq_some.1 hi).1
        · exact forall_set hi (by simp) (fun j q _ hq => h.snap j q hq)
        · exact forall_set hi (fun _ => h.is_open i pr hi (by simp [hpc, passed]))
            (fun j q _ hq => h.is_open j q hq)
        · exact returnedOk_update h.ret hi (by simp [hpc]) rfl
    | load =>
      rw [hpc] at hstep hcrit
      simp only at hstep
      cases hstep
      refine ⟨?_, ?_, ?_, ?_, ?_, ?_⟩
      · have := countP_live_set { pr with pc := .store s.ports } hi
        simp only [live, hpc] at this
        simp only
        rw [hcnt]
        omega
      · exact forall_set hi (by simpa [critical] using hcrit) (fun j q _ hq => h.holder j q hq)
      · intro j hj
        simpa using h.held j hj
      · exact forall_set hi (by simp) (fun j q _ hq => h.snap j q hq)
      · exact forall_set hi (fun _ => h.is_open i pr hi (by simp [hpc, passed]))
          (fun j q _ hq => h.is_open j q hq)
      · exact returnedOk_update h.ret hi (by simp [hpc]) rfl
    | store l =>
      rw [hpc] at hstep hcrit
      simp only at hstep
      cases hstep
      have hmu : s.mutex = some i := hcrit.1 (by simp [critical])
      refine ⟨?_, ?_, ?_, ?_, ?_, ?_⟩
      · have := countP_live_set { pr with pc := .unlock } hi
        simp only [live, hpc] at this
        simp only
        rw [hcnt]
        omega
      · exact forall_set hi (by simpa [critical] using hcrit) (fun j q _ hq => h.holder j q hq)
      · intro j hj
        simpa using h.held j hj
      · refine forall_set hi (by simp) (fun j q hji hq l2 hl2 => ?_)
        have := (h.holder j q hq).1 (by simp [hl2, critical])
        rw [hmu] at this
        exact absurd (Option.some.inj this).symm hji
      · exact forall_set hi (fun _ => h.is_open i pr hi (by simp [hpc, passed]))
          (fun j q _ hq => h.is_open j q hq)
      · exact returnedOk_update h.ret hi (by simp [hpc]) rfl
    | unlock =>
      rw [hpc] at hstep hcrit
      simp only at hstep
      cases hstep
      have hmu : s.mutex = some i := hcrit.1 (by simp [critical])
      refine ⟨?_, ?_, ?_, ?_, ?_, ?_⟩
      · have := countP_live_set { pr with pc := .done } hi
        simp only [live, hpc] at this
        simp only
        rw [hcnt]
        omega
      · refine forall_set hi (by simp [critical]) (fun j q hji hq => ?_)
        have := h.holder j q hq
        rw [hmu] at this
        constructor
        · intro hc
          exact absurd (Option.some.inj (this.1 hc)).symm hji
        · intro hn
          simp at hn
      · intro j hj
        simp at hj
      · exact forall_set hi (by simp) (fun j q _ hq => h.snap j q hq)
      · exact forall_set hi (by simp [passed]) (fun j q _ hq => h.is_open j q hq)
      · exact returnedOk_update h.ret hi (by simp [hpc]) rfl
    | done =>
      rw [hpc] at hstep hcrit
      simp only at hstep
      cases hstep
      refine ⟨?_, ?_, ?_, ?_, ?_, ?_⟩
      · have := countP_live_set { pr with pc := .exited } hi
        simp [live, hpc] at this
        simp only
        rw [hcnt, ← this]
        push_cast
        omega
      · exact forall_set hi (by simpa [critical] using hcrit) (fun j q _ hq => h.holder j q hq)
      · intro j hj
        simpa using h.held j hj
      · exact forall_set hi (by simp) (fun j q _ hq => h.snap j q hq)
      · exact forall_set hi (by simp [passed]) (fun j q _ hq => h.is_open j q hq)
      · exact returnedOk_update h.ret hi (by simp [hpc]) rfl
    | exited =>
      rw [hpc] at hstep
      cases hstep

theorem inv_stepProbe {cfg : ScanCfg} {startPort : Int} {s s' : ScanState} {i : Nat}
    (h : Inv cfg startPort s) (hstep : stepProbe cfg s i = some s') : Inv cfg startPort s' := by
  have hsync := sync_stepProbe h.sync hstep
  unfold stepProbe at hstep
  cases hi : s.probes[i]? with
  | none => rw [hi] at hstep; cases hstep
  | some pr =>
    rw [hi] at hstep
    simp only at hstep
    have hcrit := h.sync.holder i pr hi
    have hport := h.port_of i pr hi
    cases hpc : pr.pc with
    | call =>
      rw [hpc] at hstep hcrit
      simp only at hstep
      cases hstep
      refine ⟨hsync, ?_, ?_, h.nodup, ?_⟩
      · exact forall_set hi hport (fun j q _ hq => h.port_of j q hq)
      · exact loopOk_update h.loop_ok rfl rfl
      · intro p
        rw [h.mem_ports p]
        refine (exists_appended_set cfg hi (by rfl) ?_ p).symm
        by_cases ho : OpenPort cfg.dial cfg.host pr.port cfg.timeout = true <;>
          simp [appended, hpc, ho]
    | lock =>
      rw [hpc] at hstep hcrit
      simp only at hstep
      cases hmu : s.mutex with
      | some k => rw [hmu] at hstep; cases hstep
      | none =>
        rw [hmu] at hstep
        cases hstep
        refine ⟨hsync, ?_, ?_, h.nodup, ?_⟩
        · exact forall_set hi hport (fun j q _ hq => h.port_of j q hq)
        · exact loopOk_update h.loop_ok rfl rfl
        · intro p
          rw [h.mem_ports p]
          exact (exists_appended_set cfg hi (by rfl) (by simp [appended, hpc]) p).symm
    | load =>
      rw [hpc] at hstep hcrit
      simp only at hstep
      cases hstep
      refine ⟨hsync, ?_, ?_, h.nodup, ?_⟩
      · exact forall_set hi hport (fun j q _ hq => h.port_of j q hq)
      · exact loopOk_update h.loop_ok rfl rfl
      · intro p
        rw [h.mem_ports p]
        exact (exists_appended_set cfg hi (by rfl) (by simp [appended, hpc]) p).symm
    | store l =>
      rw [hpc] at hstep hcrit
      simp only at hstep
      cases hstep
      have hl : l = s.ports := h.sync.snap i pr hi l hpc
      have hnot : ∀ (j : Nat) (q : Probe), s.probes[j]? = some q → q.port = pr.port →
          j = i ∧ q = pr := by
        intro j q hq hqp
        have h1 := h.port_of j q hq
        have hji : j = i := by omega
        subst hji
        rw [hi] at hq
        cases hq
        exact ⟨rfl, rfl⟩
      have hfresh : pr.port ∉ s.ports := by
        intro hin
        obtain ⟨j, q, h1, h2, h3⟩ := (h.mem_ports pr.port).1 hin
        obtain ⟨_, h5⟩ := hnot j q h1 h2
        subst h5
        simp [appended, hpc] at h3
      refine ⟨hsync, ?_, ?_, ?_, ?_⟩
      · exact forall_set hi hport (fun j q _ hq => h.port_of j q hq)
      · exact loopOk_update h.loop_ok rfl rfl
      · simp only
        rw [hl]
        exact List.Nodup.append h.nodup (List.nodup_singleton _) (by simpa using hfresh)
      · intro p
        simp only
        rw [hl, List.mem_append, List.mem_singleton, h.mem_ports p]
        constructor
        · rintro (⟨j, q, h1, h2, h3⟩ | hp)
          · have hji : j ≠ i := by
              rintro rfl
              rw [hi] at h1
              cases h1
              simp [appended, hpc] at h3
            exact ⟨j, q, (getElem?_set_some hi).2 (Or.inr ⟨hji, h1⟩), h2, h3⟩
          · exact ⟨i, _, (getElem?_set_some hi).2 (Or.inl ⟨rfl, rfl⟩), hp.symm, by simp [appended]⟩
        · rintro ⟨j, q, h1, h2, h3⟩
          rcases (getElem?_set_some hi).1 h1 with ⟨h4, h5⟩ | ⟨h4, h5⟩
          · subst h5
            right
            exact h2.symm
          · left
            exact ⟨j, q, h5, h2, h3⟩
    | unlock =>
      rw [hpc] at hstep hcrit
      simp only at hstep
      cases hstep
      refine ⟨hsync, ?_, ?_, h.nodup, ?_⟩
      · exact forall_set hi hport (fun j q _ hq => h.port_of j q hq)
      · exact loopOk_update h.loop_ok rfl rfl
      · intro p
        rw [h.mem_ports p]
        have ho := h.sync.is_open i pr hi (by simp [hpc, passed])
        exact (exists_appended_set cfg hi (by rfl) (by simp [appended, hpc, ho]) p).symm
    | done =>
      rw [hpc] at hstep hcrit
      simp only at hstep
      cases hstep
      refine ⟨hsync, ?_, ?_, h.nodup, ?_⟩
      · exact forall_set hi hport (fun j q _ hq => h.port_of j q hq)
      · exact loopOk_update h.loop_ok rfl rfl
      · intro p
        rw [h.mem_ports p]
        exact (exists_appended_set cfg hi (by rfl) (by simp [appended, hpc]) p).symm
    | exited =>
      rw [hpc] at hstep
      cases hstep

/-! ### Scheduler steps -/

theorem stepProbe_main {cfg : ScanCfg} {s s' : ScanState} {i : Nat}
    (hstep : stepProbe cfg s i = some s') : s'.main = s.main := by
  unfold stepProbe at hstep
  cases hi : s.probes[i]? with
  | none => rw [hi] at hstep; cases hstep
  | some pr =>
    rw [hi] at hstep
    simp only at hstep
    cases hpc : pr.pc <;> rw [hpc] at hstep <;> simp only at hstep
    case lock =>
      cases hmu : s.mutex <;> rw [hmu] at hstep <;> cases hstep
      rfl
    all_goals cases hstep
    all_goals rfl

theorem mem_enabledThreads {cfg : ScanCfg} {s : ScanState} {t : Nat} :
    t ∈ enabledThreads cfg s ↔ t < s.probes.length + 1 ∧ (stepThread cfg s t).isSome = true := by
  unfold enabledThreads
  rw [List.mem_filter, List.mem_range]

theorem step_cases (cfg : ScanCfg) (s : ScanState) (c : Nat) :
    (step cfg s c = s ∧ ∀ t, stepThread cfg s t = none) ∨
      ∃ t, stepThread cfg s t = some (step cfg s c) := by
  unfold step
  simp only
  cases hsel : stepThread cfg s
      ((enabledThreads cfg s).getD (c % (enabledThreads cfg s).length) 0) with
  | some s' => exact Or.inr ⟨_, hsel⟩
  | none =>
    refine Or.inl ⟨rfl, fun t => ?_⟩
    have hempty : enabledThreads cfg s = [] := by
      by_contra hne
      have hpos : 0 < (enabledThreads cfg s).length := List.length_pos.2 hne
      have hlt : c % (enabledThreads cfg s).length < (enabledThreads cfg s).length :=
        Nat.mod_lt _ hpos
      have hmem : (enabledThreads cfg s).getD (c % (enabledThreads cfg s).length) 0
          ∈ enabledThreads cfg s := by
        rw [List.getD_eq_getElem _ _ hlt]
        exact List.getElem_mem hlt
      have hsome := (mem_enabledThreads.1 hmem).2
      rw [hsel] at hsome
      simp at hsome
    by_cases ht : t < s.probes.length + 1
    · have hnot : t ∉ enabledThreads cfg s := by rw [hempty]; simp
      rw [mem_enabledThreads] at hnot
      simp only [ht, true_and] at hnot
      cases hst : stepThread cfg s t with
      | none => rfl
      | some s2 => rw [hst] at hnot; simp at hnot
    · obtain ⟨k, rfl⟩ : ∃ k, t = k + 1 := ⟨t - 1, by omega⟩
      unfold stepThread stepProbe
      have : s.probes[k]? = none := List.getElem?_eq_none (by omega)
      simp [this]

theorem inv_stepThread {cfg : ScanCfg} {startPort : Int} {s s' : ScanState} {t : Nat}
    (hs : IsInt startPort) (he : cfg.endPort < maxInt) (h : Inv cfg startPort s)
    (hstep : stepThread cfg s t = some s') : Inv cfg startPort s' := by
  cases t with
  | zero => exact inv_stepMain hs he h hstep
  | succ i => exact inv_stepProbe h hstep

theorem inv_step {cfg : ScanCfg} {startPort : Int} {s : ScanState} (c : Nat)
    (hs : IsInt startPort) (he : cfg.endPort < maxInt) (h : Inv cfg startPort s) :
    Inv cfg startPort (step cfg s c) := by
  rcases step_cases cfg s c with ⟨h1, _⟩ | ⟨t, ht⟩
  · rw [h1]; exact h
  · exact inv_stepThread hs he h ht

theorem inv_runFor (cfg : ScanCfg) {startPort : Int} (sched : Nat → Nat)
    (hs : IsInt startPort) (he : cfg.endPort < maxInt) (n : Nat) :
    Inv cfg startPort (runFor cfg sched (scanInit startPort) n) := by
  induction n with
  | zero => exact inv_init cfg startPort
  | succ n ih => exact inv_step _ hs he ih

/-! ### No deadlock, and every step uses up the measure -/

theorem exists_live_of_countP_pos {l : List Probe} (h : 0 < l.countP live) :
    ∃ (j : Nat) (pr : Probe), l[j]? = some pr ∧ pr.pc ≠ .exited := by
  obtain ⟨pr, hmem, hlive⟩ := List.countP_pos_iff.1 h
  obtain ⟨j, hj⟩ := List.mem_iff_getElem?.1 hmem
  refine ⟨j, pr, hj, fun hex => ?_⟩
  simp [live, hex] at hlive

theorem progress {cfg : ScanCfg} {s : ScanState}
    (h : SyncInv cfg s) (hout : outcome s = none) :
    ∃ t s', stepThread cfg s t = some s' := by
  cases hmain : s.main with
  | loop p =>
    refine ⟨0, ?_⟩
    show ∃ s', stepMain cfg s = some s'
    unfold stepMain
    rw [hmain]
    by_cases hp : p ≤ cfg.endPort <;> simp [hp]
  | returned ps err => simp [outcome, hmain] at hout
  | wait =>
    by_cases hw : s.waitGroup = 0
    · refine ⟨0, ?_⟩
      show ∃ s', stepMain cfg s = some s'
      unfold stepMain
      rw [hmain]
      simp [hw]
    · have hpos : 0 < s.probes.countP live := by
        have := h.counter
        omega
      obtain ⟨j, pr, hj, hne⟩ := exists_live_of_countP_pos hpos
      cases hmu : s.mutex with
      | some k =>
        have hk := h.held k hmu
        obtain ⟨q, hq⟩ : ∃ q, s.probes[k]? = some q :=
          ⟨s.probes[k], List.getElem?_eq_some.2 ⟨hk, rfl⟩⟩
        have hc := (h.holder k q hq).2 hmu
        refine ⟨k + 1, ?_⟩
        show ∃ s', stepProbe cfg s k = some s'
        unfold stepProbe
        rw [hq]
        cases hpc : q.pc <;> simp [hpc, critical] at hc ⊢
      | none =>
        have hc := h.holder j pr hj
        rw [hmu] at hc
        refine ⟨j + 1, ?_⟩
        show ∃ s', stepProbe cfg s j = some s'
        unfold stepProbe
        rw [hj]
        cases hpc : pr.pc <;> simp [hpc, critical, hmu] at hc hne ⊢

theorem sum_remaining_set {l : List Probe} {i : Nat} {pr : Probe} (x : Probe)
    (hi : l[i]? = some pr) :
    ((l.set i x).map probeCost).sum + probeCost pr
      = (l.map probeCost).sum + probeCost x := by
  obtain ⟨pre, post, h1, h2⟩ := set_split hi
  rw [h2 x, h1]
  simp only [List.map_append, List.map_cons, List.sum_append, List.sum_cons]
  omega

theorem stepsLeft_stepProbe {cfg : ScanCfg} {s s' : ScanState} {i : Nat}
    (hstep : stepProbe cfg s i = some s') : stepsLeft cfg s' < stepsLeft cfg s := by
  have hmain := stepProbe_main hstep
  unfold stepsLeft
  rw [hmain]
  unfold stepProbe at hstep
  cases hi : s.probes[i]? with
  | none => rw [hi] at hstep; cases hstep
  | some pr =>
    rw [hi] at hstep
    simp only at hstep
    cases hpc : pr.pc with
    | call =>
      rw [hpc] at hstep
      simp only at hstep
      cases hstep
      by_cases ho : OpenPort cfg.dial cfg.host pr.port cfg.timeout = true
      · have := sum_remaining_set { pr with pc := .lock } hi
        simp only [probeCost, hpc, remaining] at this
        rw [if_pos ho]
        simp only
        omega
      · have := sum_remaining_set { pr with pc := .done } hi
        simp only [probeCost, hpc, remaining] at this
        rw [if_neg ho]
        simp only
        omega
    | lock =>
      rw [hpc] at hstep
      simp only at hstep
      cases hmu : s.mutex with
      | some k => rw [hmu] at hstep; cases hstep
      | none =>
        rw [hmu] at hstep
        cases hstep
        have := sum_remaining_set { pr with pc := .load } hi
        simp only [probeCost, hpc, remaining] at this
        simp only
        omega
    | load =>
      rw [hpc] at hstep
      cases hstep
      have := sum_remaining_set { pr with pc := .store s.ports } hi
      simp only [probeCost, hpc, remaining] at this
      simp only
      omega
    | store l =>
      rw [hpc] at hstep
      cases hstep
      have := sum_remaining_set { pr with pc := .unlock } hi
      simp only [probeCost, hpc, remaining] at this
      simp only
      omega
    | unlock =>
      rw [hpc] at hstep
      cases hstep
      have := sum_remaining_set { pr with pc := .done } hi
      simp only [probeCost, hpc, remaining] at this
      simp only
      omega
    | done =>
      rw [hpc] at hstep
      cases hstep
      have := sum_remaining_set { pr with pc := .exited } hi
      simp only [probeCost, hpc, remaining] at this
      simp only
      omega
    | exited =>
      rw [hpc] at hstep
      cases hstep

theorem stepsLeft_stepMain {cfg : ScanCfg} {startPort : Int} {s s' : ScanState}
    (hs : IsInt startPort) (he : cfg.endPort < maxInt) (h : Inv cfg startPort s)
    (hstep : stepMain cfg s = some s') : stepsLeft cfg s' < stepsLeft cfg s := by
  have hm := h.loop_ok
  unfold LoopOk at hm
  unfold stepMain at hstep
  unfold stepsLeft
  cases hmain : s.main with
  | loop p =>
    rw [hmain] at hm hstep
    simp only at hm hstep
    obtain ⟨hp, hle⟩ := hm
    by_cases hpe : p ≤ cfg.endPort
    · rw [if_pos hpe] at hstep
      cases hstep
      have hw : wrapInt (p + 1) = p + 1 := by
        apply wrapInt_of_isInt
        unfold IsInt minInt maxInt at *
        omega
      simp only [hw, mainRemaining, List.map_append, List.map_cons, List.map_nil,
        List.sum_append, List.sum_cons, List.sum_nil, probeCost, remaining]
      omega
    · rw [if_neg hpe] at hstep
      cases hstep
      simp only [mainRemaining]
      omega
  | wait =>
    rw [hmain] at hstep
    simp only at hstep
    by_cases hw : s.waitGroup = 0
    · rw [if_pos hw] at hstep
      cases hstep
      simp only [mainRemaining]
      omega
    · rw [if_neg hw] at hstep
      cases hstep
  | returned ps err =>
    rw [hmain] at hstep
    cases hstep

theorem stepsLeft_stepThread {cfg : ScanCfg} {startPort : Int} {s s' : ScanState} {t : Nat}
    (hs : IsInt startPort) (he : cfg.endPort < maxInt) (h : Inv cfg startPort s)
    (hstep : stepThread cfg s t = some s') : stepsLeft cfg s' < stepsLeft cfg s := by
  cases t with
  | zero => exact stepsLeft_stepMain hs he h hstep
  | succ i => exact stepsLeft_stepProbe hstep

/-! ### Every schedule brings the call to its return -/

theorem outcome_step {cfg : ScanCfg} {s : ScanState} {r : IntSlice × Option String} (c : Nat)
    (h : outcome s = some r) : outcome (step cfg s c) = some r := by
  rcases step_cases cfg s c with ⟨h1, _⟩ | ⟨t, ht⟩
  · rw [h1]; exact h
  · cases t with
    | zero =>
      exfalso
      have hm : stepMain cfg s = some (step cfg s c) := ht
      unfold stepMain at hm
      unfold outcome at h
      cases hmain : s.main <;> rw [hmain] at h hm <;> simp at h hm
    | succ i =>
      have hm : (step cfg s c).main = s.main := stepProbe_main ht
      unfold outcome at h ⊢
      rw [hm]
      exact h

theorem stepsLeft_pos (cfg : ScanCfg) {s : ScanState} (h : outcome s = none) :
    0 < stepsLeft cfg s := by
  unfold stepsLeft
  unfold outcome at h
  cases hmain : s.main <;> rw [hmain] at h <;> simp [mainRemaining] at h ⊢

theorem runFor_measure (cfg : ScanCfg) {startPort : Int} (sched : Nat → Nat)
    (hs : IsInt startPort) (he : cfg.endPort < maxInt) (n : Nat) :
    (∃ r, outcome (runFor cfg sched (scanInit startPort) n) = some r) ∨
      stepsLeft cfg (runFor cfg sched (scanInit startPort) n) + n
        ≤ stepsLeft cfg (scanInit startPort) := by
  induction n with
  | zero => right; simp [runFor]
  | succ n ih =>
    have hinv := inv_runFor cfg sched hs he n
    show (∃ r, outcome (step cfg (runFor cfg sched (scanInit startPort) n) (sched n)) = some r) ∨
      stepsLeft cfg (step cfg (runFor cfg sched (scanInit startPort) n) (sched n)) + (n + 1)
        ≤ stepsLeft cfg (scanInit startPort)
    rcases ih with ⟨r, hr⟩ | hle
    · exact Or.inl ⟨r, outcome_step _ hr⟩
    · cases hout : outcome (runFor cfg sched (scanInit startPort) n) with
      | some r => exact Or.inl ⟨r, outcome_step _ hout⟩
      | none =>
        right
        rcases step_cases cfg (runFor cfg sched (scanInit startPort) n) (sched n) with
          ⟨_, hnone⟩ | ⟨t, ht⟩
        · obtain ⟨t, s', ht⟩ := progress hinv.sync hout
          rw [hnone t] at ht
          cases ht
        · have := stepsLeft_stepThread hs he hinv ht
          omega

theorem stepsLeft_scanInit (cfg : ScanCfg) (startPort : Int) :
    stepsLeft cfg (scanInit startPort) = scanFuel startPort cfg.endPort := by
  simp [stepsLeft, scanInit, mainRemaining, scanFuel]

theorem runFor_returns (cfg : ScanCfg) {startPort : Int} (sched : Nat → Nat)
    (hs : IsInt startPort) (he : cfg.endPort < maxInt) (n : Nat)
    (hn : scanFuel startPort cfg.endPort ≤ n) :
    ∃ r, outcome (runFor cfg sched (scanInit startPort) n) = some r := by
  rcases runFor_measure cfg sched hs he n with h | h
  · exact h
  · cases hout : outcome (runFor cfg sched (scanInit startPort) n) with
    | some r => exact ⟨r, rfl⟩
    | none =>
      have := stepsLeft_pos cfg hout
      rw [stepsLeft_scanInit] at h
      omega

/-- What a returned state says about the returned pair. -/
theorem returned_spec {cfg : ScanCfg} {startPort : Int} {s : ScanState}
    {r : IntSlice × Option String} (h : Inv cfg startPort s) (hout : outcome s = some r) :
    r = (some s.ports, none) ∧ s.ports.Nodup ∧
      ∀ p, p ∈ s.ports ↔
        startPort ≤ p ∧ p ≤ cfg.endPort ∧ OpenPort cfg.dial cfg.host p cfg.timeout = true := by
  have hm := h.loop_ok
  have hr := h.sync.ret
  unfold LoopOk at hm
  unfold ReturnedOk at hr
  unfold outcome at hout
  cases hmain : s.main with
  | loop p => rw [hmain] at hout; simp at hout
  | wait => rw [hmain] at hout; simp at hout
  | returned ps err =>
    rw [hmain] at hout hm hr
    simp only at hm hout hr
    obtain ⟨hps, herr, hex⟩ := hr
    subst hps; subst herr
    cases hout
    refine ⟨rfl, h.nodup, fun p => ?_⟩
    rw [h.mem_ports p]
    constructor
    · rintro ⟨j, pr, h1, h2, h3⟩
      have hport := h.port_of j pr h1
      have hj : j < s.probes.length := (List.getElem?_eq_some.1 h1).1
      have hpc := hex j pr h1
      simp only [appended, hpc] at h3
      rw [h2] at h3 hport
      refine ⟨by omega, by omega, h3⟩
    · rintro ⟨h1, h2, h3⟩
      have hj : (p - startPort).toNat < s.probes.length := by omega
      have hq := List.getElem?_eq_some.2 ⟨hj, rfl⟩
      have hport := h.port_of _ _ hq
      have hpc := hex _ _ hq
      have hpp : (s.probes[(p - startPort).toNat]).port = p := by omega
      refine ⟨(p - startPort).toNat, s.probes[(p - startPort).toNat], hq, hpp, ?_⟩
      simp only [appended, hpc, hpp]
      exact h3

/-! ### A loop bound of `maxInt` is never passed -/

theorem runFor_loops (cfg : ScanCfg) (hE : cfg.endPort = maxInt) (sched : Nat → Nat)
    {startPort : Int} (hs : IsInt startPort) (n : Nat) :
    ∃ p, (runFor cfg sched (scanInit startPort) n).main = .loop p ∧ IsInt p := by
  induction n with
  | zero => exact ⟨startPort, rfl, hs⟩
  | succ n ih =>
    obtain ⟨p, hp, hip⟩ := ih
    show ∃ q, (step cfg (runFor cfg sched (scanInit startPort) n) (sched n)).main = .loop q
      ∧ IsInt q
    rcases step_cases cfg (runFor cfg sched (scanInit startPort) n) (sched n) with
      ⟨h1, _⟩ | ⟨t, ht⟩
    · rw [h1]; exact ⟨p, hp, hip⟩
    · cases t with
      | zero =>
        have hm : stepMain cfg (runFor cfg sched (scanInit startPort) n)
          = some (step cfg (runFor cfg sched (scanInit startPort) n) (sched n)) := ht
        unfold stepMain at hm
        rw [hp] at hm
        have hle : p ≤ cfg.endPort := by rw [hE]; exact hip.2
        simp only [hle, if_true] at hm
        cases hm' : step cfg (runFor cfg sched (scanInit startPort) n) (sched n)
        rw [hm'] at hm
        cases hm
        exact ⟨_, rfl, isInt_wrapInt _⟩
      | succ i =>
        have hm := stepProbe_main ht
        rw [hm]
        exact ⟨p, hp, hip⟩

/-! ### TCPScanner -/

theorem scanAfter_eq {host : String} (hh : host ≠ "") (n : Nat) (dial : Dial)
    (sched : Nat → Nat) (startPort endPort timeout : Int) :
    scanAfter n dial sched host startPort endPort timeout
      = runFor { dial := dial, host := host, endPort := lastPort endPort, timeout := timeout }
          sched (scanInit startPort) n := by
  simp [scanAfter, hh]

theorem sync_runFor (cfg : ScanCfg) (sched : Nat → Nat) (startPort : Int) (n : Nat) :
    SyncInv cfg (runFor cfg sched (scanInit startPort) n) := by
  induction n with
  | zero => exact sync_init cfg startPort
  | succ n ih =>
    show SyncInv cfg (step cfg (runFor cfg sched (scanInit startPort) n) (sched n))
    rcases step_cases cfg (runFor cfg sched (scanInit startPort) n) (sched n) with
      ⟨h1, _⟩ | ⟨t, ht⟩
    · rw [h1]; exact ih
    · cases t with
      | zero => exact sync_stepMain ih ht
      | succ i => exact sync_stepProbe ih ht

theorem TCPScanner_ok (dial : Dial) (sched : Nat → Nat) (host : String)
    (startPort endPort timeout : Int) (hh : host ≠ "") (hs : IsInt startPort)
    (he : lastPort endPort < maxInt) :
    ∃ l, TCPScanner dial sched host startPort endPort timeout = some (some l, none) ∧
      l.Nodup ∧
      ∀ p, p ∈ l ↔
        startPort ≤ p ∧ p ≤ lastPort endPort ∧ OpenPort dial host p timeout = true := by
  unfold TCPScanner
  rw [scanAfter_eq hh]
  obtain ⟨r, hr⟩ := runFor_returns
    { dial := dial, host := host, endPort := lastPort endPort, timeout := timeout }
    sched hs he (scanFuel startPort (lastPort endPort)) (le_refl _)
  have hinv := inv_runFor
    { dial := dial, host := host, endPort := lastPort endPort, timeout := timeout }
    sched hs he (scanFuel startPort (lastPort endPort))
  obtain ⟨h1, h2, h3⟩ := returned_spec hinv hr
  rw [hr, h1]
  exact ⟨_, rfl, h2, h3⟩

theorem TCPScanner_never (dial : Dial) (sched : Nat → Nat) (host : String)
    (startPort endPort timeout : Int) (hh : host ≠ "") (hs : IsInt startPort)
    (he : lastPort endPort = maxInt) (n : Nat) :
    outcome (scanAfter n dial sched host startPort endPort timeout) = none := by
  rw [scanAfter_eq hh]
  obtain ⟨p, hp, _⟩ := runFor_loops
    { dial := dial, host := host, endPort := lastPort endPort, timeout := timeout }
    he sched hs n
  unfold outcome
  rw [hp]

theorem mem_portRange {a b p : Int} : p ∈ portRange a b ↔ a ≤ p ∧ p < b := by
  unfold portRange
  simp only [List.mem_map, List.mem_range]
  constructor
  · rintro ⟨k, hk, rfl⟩
    omega
  · rintro ⟨h1, h2⟩
    exact ⟨(p - a).toNat, by omega, by omega⟩

theorem pairwise_portRange (a b : Int) : (portRange a b).Pairwise (· < ·) := by
  unfold portRange
  refine List.Pairwise.map _ ?_ (List.pairwise_lt_range _)
  intro x y hxy
  omega

theorem pairwise_openPortsAscending (dial : Dial) (host : String)
    (startPort endPort timeout : Int) :
    (openPortsAscending dial host startPort endPort timeout).Pairwise (· < ·) :=
  List.Pairwise.filter _ (pairwise_portRange _ _)

theorem mem_openPortsAscending {dial : Dial} {host : String} {startPort endPort timeout p : Int} :
    p ∈ openPortsAscending dial host startPort endPort timeout ↔
      startPort ≤ p ∧ p ≤ endPort ∧ OpenPort dial host p timeout = true := by
  unfold openPortsAscending
  rw [List.mem_filter, mem_portRange]
  constructor
  · rintro ⟨⟨h1, h2⟩, h3⟩
    exact ⟨h1, by omega, h3⟩
  · rintro ⟨h1, h2, h3⟩
    exact ⟨⟨h1, by omega⟩, h3⟩

theorem TCPScanner_perm (dial : Dial) (sched : Nat → Nat) (host : String)
    (startPort endPort timeout : Int) (hh : host ≠ "") (hs : IsInt startPort)
    (he : lastPort endPort < maxInt) :
    ∃ l, TCPScanner dial sched host startPort endPort timeout = some (some l, none) ∧
      l.Perm (openPortsAscending dial host startPort (lastPort endPort) timeout) := by
  obtain ⟨l, h1, h2, h3⟩ := TCPScanner_ok dial sched host startPort endPort timeout hh hs he
  refine ⟨l, h1, ?_⟩
  have hnd : (openPortsAscending dial host startPort (lastPort endPort) timeout).Nodup :=
    (pairwise_openPortsAscending dial host startPort (lastPort endPort) timeout).imp
      (fun h => ne_of_lt h)
  refine (List.perm_ext_iff_of_nodup h2 hnd).2 (fun p => ?_)
  rw [h3 p, mem_openPortsAscending]

theorem TCPScanner_empty (dial : Dial) (sched : Nat → Nat) (startPort endPort timeout : Int) :
    TCPScanner dial sched "" startPort endPort timeout
      = some (none, some "No host to search") := by
  simp [TCPScanner, scanAfter, outcome]

/-- Every enabled thread can be the scheduler's choice. -/
theorem step_any {cfg : ScanCfg} {s s' : ScanState} {t : Nat}
    (h : stepThread cfg s t = some s') : ∃ c, step cfg s c = s' := by
  have hlt : t < s.probes.length + 1 := by
    cases t with
    | zero => omega
    | succ i =>
      have h' : stepProbe cfg s i = some s' := h
      unfold stepProbe at h'
      cases hi : s.probes[i]? with
      | none => rw [hi] at h'; cases h'
      | some pr =>
        have := (List.getElem?_eq_some.1 hi).1
        omega
  have hmem : t ∈ enabledThreads cfg s := mem_enabledThreads.2 ⟨hlt, by simp [h]⟩
  have hidx : List.indexOf t (enabledThreads cfg s) < (enabledThreads cfg s).length :=
    List.indexOf_lt_length.2 hmem
  refine ⟨List.indexOf t (enabledThreads cfg s), ?_⟩
  unfold step
  simp only
  rw [Nat.mod_eq_of_lt hidx, List.getD_eq_getElem _ _ hidx, List.getElem_indexOf hidx, h]

/-! ### ScanHost -/

theorem ScanHost_eq (dial : Dial) (sched : Nat → Nat) (host : String) :
    ScanHost dial sched host = TCPScanner dial sched host 0 65535 (2 * Second) := by
  unfold ScanHost
  by_cases hh : host = ""
  · subst hh
    rw [TCPScanner_empty]
  · obtain ⟨l, hl, _⟩ := TCPScanner_ok dial sched host 0 65535
      (2 * Second) hh (by unfold IsInt minInt maxInt; omega)
      (by unfold lastPort maxInt; simp)
    rw [hl]

theorem ScanHost_value (dial : Dial) (sched : Nat → Nat) (host : String) :
    ∃ ports err, ScanHost dial sched host = some (ports, err) ∧
      (IntSlice.elems ports).Nodup ∧ ∀ p ∈ IntSlice.elems ports, 0 ≤ p ∧ p ≤ 65535 := by
  rw [ScanHost_eq]
  by_cases hh : host = ""
  · subst hh
    rw [TCPScanner_empty]
    exact ⟨none, _, rfl, by simp [IntSlice.elems], by simp [IntSlice.elems]⟩
  · obtain ⟨l, hl, hnd, hmem⟩ := TCPScanner_ok dial sched host 0 65535
      (2 * Second) hh (by unfold IsInt minInt maxInt; omega)
      (by unfold lastPort maxInt; simp)
    refine ⟨some l, none, hl, by simpa [IntSlice.elems] using hnd, ?_⟩
    intro p hp
    have := (hmem p).1 (by simpa [IntSlice.elems] using hp)
    have hlast : lastPort 65535 = 65535 := by simp [lastPort]
    rw [hlast] at this
    exact ⟨this.1, this.2.1⟩

/-! ### getLocalIPAddresses -/

theorem addressLoop_eq (acc : List String) (addrs : List Addr) :
    addressLoop acc addrs = acc ++ addrs.filterMap Addr.ipv4String := by
  induction addrs generalizing acc with
  | nil => simp [addressLoop]
  | cons a rest ih =>
    cases a with
    | IPNet ip mask =>
      cases hT : To4 ip <;> simp [addressLoop, Addr.ipv4String, hT, ih]
    | IPAddr ip zone =>
      cases hT : To4 ip <;> simp [addressLoop, Addr.ipv4String, hT, ih]
    | other =>
      have hT : To4 [] = none := by decide
      simp [addressLoop, Addr.ipv4String, hT, ih]

theorem interfaceLoop_eq (acc : List String) (ifs : List Interface) :
    interfaceLoop acc ifs =
      if ifs.any (fun i => i.usable && i.Addrs.isNone) then
        .error "Couldn't fetch inface addresses"
      else .ok (acc ++ localIPv4 ifs) := by
  induction ifs generalizing acc with
  | nil => simp [interfaceLoop, localIPv4]
  | cons i rest ih =>
    unfold interfaceLoop
    by_cases hup : i.Flags &&& FlagUp = 0
    · have hu : i.usable = false := by simp [Interface.usable, hup]
      rw [if_pos hup, ih]
      simp [hu, localIPv4, List.filter_cons]
    · rw [if_neg hup]
      by_cases hlo : i.Flags &&& FlagLoopback ≠ 0
      · have hu : i.usable = false := by
          simp only [Interface.usable, Bool.and_eq_false_iff, decide_eq_false_iff_not]
          exact Or.inr hlo
        rw [if_pos hlo, ih]
        simp [hu, localIPv4, List.filter_cons]
      · rw [if_neg hlo]
        have hu : i.usable = true := by
          simp only [Interface.usable, Bool.and_eq_true, decide_eq_true_eq]
          exact ⟨hup, by simpa using hlo⟩
        cases ha : i.Addrs with
        | none => simp [hu, ha]
        | some addresses =>
          simp only
          rw [ih, addressLoop_eq]
          simp [hu, ha, localIPv4, List.filter_cons]

theorem getLocalIPAddresses_eq (interfaces : List Interface) (network : Network) :
    getLocalIPAddresses (some interfaces) network =
      if interfaces.any (fun i => i.usable && i.Addrs.isNone) then
        (network, some "Couldn't fetch inface addresses")
      else if localIPv4 interfaces = [] then (network, some "No ipAddresses available")
      else ({ network with MyIPAddresses := localIPv4 interfaces }, none) := by
  unfold getLocalIPAddresses
  simp only [interfaceLoop_eq, List.nil_append]
  by_cases hany : interfaces.any (fun i => i.usable && i.Addrs.isNone) = true
  · simp [hany]
  · simp only [hany, Bool.false_eq_true, if_false]
    by_cases hl : localIPv4 interfaces = []
    · simp [hl]
    · have : (localIPv4 interfaces).length ≠ 0 := by
        intro h0
        exact hl (List.length_eq_zero.1 h0)
      simp [hl, this]

/-- An error leaves the receiver as it was. -/
theorem getLocalIPAddresses_keeps (interfaces : Option (List Interface)) (network : Network)
    (h : (getLocalIPAddresses interfaces network).2 ≠ none) :
    (getLocalIPAddresses interfaces network).1 = network := by
  cases interfaces with
  | none => rfl
  | some ifs =>
    rw [getLocalIPAddresses_eq] at h ⊢
    by_cases hany : ifs.any (fun i => i.usable && i.Addrs.isNone) = true
    · simp [hany]
    · simp only [hany, Bool.false_eq_true, if_false] at h ⊢
      by_cases hl : localIPv4 ifs = []
      · simp [hl]
      · simp [hl] at h

/-! ### NewNetwork -/

theorem mem_mapKeys_mapAssign {m : List (String × IntSlice)} {k a : String} {v : IntSlice} :
    a ∈ mapKeys (mapAssign m k v) ↔ a = k ∨ a ∈ mapKeys m := by
  unfold mapKeys mapAssign
  simp only [List.map_cons, List.mem_cons, List.mem_map, List.mem_filter, Prod.exists]
  constructor
  · rintro (h | ⟨x, y, ⟨h1, _⟩, h3⟩)
    · exact Or.inl h
    · right
      exact ⟨x, y, h1, h3⟩
  · rintro (h | ⟨x, y, h1, h2⟩)
    · exact Or.inl h
    · by_cases hak : a = k
      · exact Or.inl hak
      · right
        refine ⟨x, y, ⟨h1, ?_⟩, h2⟩
        subst h2
        simpa using hak

theorem scanLoop_spec (env : Nat → ScanEnv) (addresses : List String) :
    ∀ (k : Nat) (nw : Network) (scanned : List String),
      (∀ a v, (a, v) ∈ nw.IPsAndPorts →
        (IntSlice.elems v).Nodup ∧ ∀ p ∈ IntSlice.elems v, 0 ≤ p ∧ p ≤ 65535) →
      ∃ nw', scanLoop env k addresses nw scanned = some (nw', scanned ++ addresses) ∧
        nw'.MyIPAddresses = nw.MyIPAddresses ∧
        (∀ a, a ∈ mapKeys nw'.IPsAndPorts ↔ a ∈ mapKeys nw.IPsAndPorts ∨ a ∈ addresses) ∧
        (∀ a v, (a, v) ∈ nw'.IPsAndPorts →
          (IntSlice.elems v).Nodup ∧ ∀ p ∈ IntSlice.elems v, 0 ≤ p ∧ p ≤ 65535) := by
  induction addresses with
  | nil =>
    intro k nw scanned hval
    exact ⟨nw, by simp [scanLoop], rfl, by simp, hval⟩
  | cons address rest ih =>
    intro k nw scanned hval
    obtain ⟨ports, err, hscan, hnd, hrange⟩ := ScanHost_value (env k).dial (env k).sched address
    have hval' : ∀ a v,
        (a, v) ∈ ({ nw with IPsAndPorts := mapAssign nw.IPsAndPorts address ports } : Network).IPsAndPorts →
        (IntSlice.elems v).Nodup ∧ ∀ p ∈ IntSlice.elems v, 0 ≤ p ∧ p ≤ 65535 := by
      intro a v hmem
      simp only [mapAssign, List.mem_cons, List.mem_filter, Prod.mk.injEq] at hmem
      rcases hmem with ⟨_, rfl⟩ | ⟨hmem, _⟩
      · exact ⟨hnd, hrange⟩
      · exact hval a v hmem
    obtain ⟨nw', h1, h2, h3, h4⟩ := ih (k + 1) _ (scanned ++ [address]) hval'
    refine ⟨nw', ?_, ?_, ?_, h4⟩
    · unfold scanLoop
      rw [hscan]
      simp only
      rw [h1]
      simp
    · rw [h2]
    · intro a
      rw [h3 a]
      simp only [mem_mapKeys_mapAssign, List.mem_cons]
      tauto

/-! ### Mutations of the shared slice -/

theorem ports_stepMain {cfg : ScanCfg} {s s' : ScanState}
    (hstep : stepMain cfg s = some s') : s'.ports = s.ports := by
  unfold stepMain at hstep
  cases hmain : s.main with
  | loop p =>
    rw [hmain] at hstep
    simp only at hstep
    by_cases hpe : p ≤ cfg.endPort
    · rw [if_pos hpe] at hstep; cases hstep; rfl
    · rw [if_neg hpe] at hstep; cases hstep; rfl
  | wait =>
    rw [hmain] at hstep
    simp only at hstep
    by_cases hw : s.waitGroup = 0
    · rw [if_pos hw] at hstep; cases hstep; rfl
    · rw [if_neg hw] at hstep; cases hstep
  | returned ps err =>
    rw [hmain] at hstep
    cases hstep

theorem ports_stepProbe {cfg : ScanCfg} {s s' : ScanState} {i : Nat}
    (h : SyncInv cfg s) (hstep : stepProbe cfg s i = some s') (hne : s'.ports ≠ s.ports) :
    s.mutex = some i ∧ ∃ pr, s.probes[i]? = some pr ∧ pr.pc = .store s.ports ∧
      s'.ports = s.ports ++ [pr.port] := by
  unfold stepProbe at hstep
  cases hi : s.probes[i]? with
  | none => rw [hi] at hstep; cases hstep
  | some pr =>
    rw [hi] at hstep
    simp only at hstep
    have hcrit := h.holder i pr hi
    cases hpc : pr.pc with
    | store l =>
      rw [hpc] at hstep hcrit
      cases hstep
      have hl := h.snap i pr hi l hpc
      subst hl
      exact ⟨hcrit.1 (by simp [critical]), pr, rfl, hpc, rfl⟩
    | lock =>
      rw [hpc] at hstep
      simp only at hstep
      cases hmu : s.mutex <;> rw [hmu] at hstep <;> cases hstep
      exact absurd rfl hne
    | call => rw [hpc] at hstep; cases hstep; exact absurd rfl hne
    | load => rw [hpc] at hstep; cases hstep; exact absurd rfl hne
    | unlock => rw [hpc] at hstep; cases hstep; exact absurd rfl hne
    | done => rw [hpc] at hstep; cases hstep; exact absurd rfl hne
    | exited => rw [hpc] at hstep; cases hstep

theorem lastPort_lt_maxInt {endPort : Int} (he : IsInt endPort) (hm : endPort ≠ maxInt) :
    lastPort endPort < maxInt := by
  unfold IsInt minInt maxInt at he
  unfold maxInt at hm ⊢
  unfold lastPort
  split <;> omega

theorem lastPort_eq_maxInt {endPort : Int} (hm : endPort = maxInt) :
    lastPort endPort = maxInt := by
  subst hm
  decide

/-- The result of a scan of a non-empty host, under every schedule: if the
call returns, it returns a non-nil list with a nil error that is a
permutation of the ascending list of open ports. -/
theorem TCPScanner_result (dial : Dial) (sched : Nat → Nat) (host : String)
    (startPort endPort timeout : Int) (hh : host ≠ "") (hs : IsInt startPort)
    (he : IsInt endPort) {r : IntSlice × Option String}
    (hr : TCPScanner dial sched host startPort endPort timeout = some r) :
    endPort ≠ maxInt ∧ ∃ l, r = (some l, none) ∧ l.Nodup ∧
      (∀ p, p ∈ l ↔
        startPort ≤ p ∧ p ≤ lastPort endPort ∧ OpenPort dial host p timeout = true) ∧
      l.Perm (openPortsAscending dial host startPort (lastPort endPort) timeout) := by
  by_cases hm : endPort = maxInt
  · have := TCPScanner_never dial sched host startPort endPort timeout hh hs (lastPort_eq_maxInt hm)
      (scanFuel startPort (lastPort endPort))
    unfold TCPScanner at hr
    rw [this] at hr
    cases hr
  · obtain ⟨l, h1, h2, h3⟩ := TCPScanner_ok dial sched host startPort endPort timeout hh hs (lastPort_lt_maxInt he hm)
    obtain ⟨l', h1', h4⟩ := TCPScanner_perm dial sched host startPort endPort timeout hh hs (lastPort_lt_maxInt he hm)
    rw [h1] at hr h1'
    cases hr
    cases h1'
    exact ⟨hm, l, rfl, h2, h3, h4⟩

/-! ## The claims -/

/-- C1: for every startPort, endPort and timeout, `TCPScanner` called with
the empty host returns the nil list together with an error, and at no point
of the call has a goroutine been launched or `OpenPort` been called. -/
theorem TCPScanner_empty_host (dial : Dial) (sched : Nat → Nat)
    (startPort endPort timeout : Int) (n : Nat) :
    TCPScanner dial sched "" startPort endPort timeout
        = some (none, some "No host to search") ∧
      (scanAfter n dial sched "" startPort endPort timeout).probes = [] ∧
      (scanAfter n dial sched "" startPort endPort timeout).dialed = [] := by
  refine ⟨TCPScanner_empty dial sched startPort endPort timeout, ?_, ?_⟩ <;>
    simp [scanAfter]

/-- C2: for a non-empty host and every schedule, the list `TCPScanner`
returns has no duplicates, contains `p` exactly when
`startPort ≤ p ≤ E` and `OpenPort host p` holds (`E` is endPort, or 65535
for endPort 0), and so has as many elements as there are open ports among
the probed ones; and the call does return unless endPort is the largest
int. -/
theorem TCPScanner_open_ports (dial : Dial) (sched : Nat → Nat) (host : String)
    (startPort endPort timeout : Int) (hh : host ≠ "") (hs : IsInt startPort)
    (he : IsInt endPort) :
    (∀ r, TCPScanner dial sched host startPort endPort timeout = some r →
      ∃ l, r = (some l, none) ∧ l.Nodup ∧
        (∀ p, p ∈ l ↔
          startPort ≤ p ∧ p ≤ lastPort endPort ∧ OpenPort dial host p timeout = true) ∧
        l.length
          = (openPortsAscending dial host startPort (lastPort endPort) timeout).length) ∧
      (endPort ≠ maxInt →
        ∃ r, TCPScanner dial sched host startPort endPort timeout = some r) := by
  constructor
  · intro r hr
    obtain ⟨_, l, h1, h2, h3, h4⟩ := TCPScanner_result dial sched host startPort endPort timeout hh hs he hr
    exact ⟨l, h1, h2, h3, h4.length_eq⟩
  · intro hm
    obtain ⟨l, h1, _⟩ := TCPScanner_ok dial sched host startPort endPort timeout hh hs (lastPort_lt_maxInt he hm)
    exact ⟨_, h1⟩

theorem TCPScanner_open_ports_witness :
    ("10.0.0.5" ≠ "" ∧ IsInt 8000 ∧ IsInt 8002) ∧
      ((∀ r, TCPScanner allOpen secondFirst "10.0.0.5" 8000 8002 200000000 = some r →
        ∃ l, r = (some l, none) ∧ l.Nodup ∧
          (∀ p, p ∈ l ↔
            8000 ≤ p ∧ p ≤ lastPort 8002 ∧ OpenPort allOpen "10.0.0.5" p 200000000 = true) ∧
          l.length
            = (openPortsAscending allOpen "10.0.0.5" 8000 (lastPort 8002) 200000000).length) ∧
        ((8002 : Int) ≠ maxInt →
          ∃ r, TCPScanner allOpen secondFirst "10.0.0.5" 8000 8002 200000000 = some r)) :=
  ⟨⟨by decide, by decide, by decide⟩,
    TCPScanner_open_ports allOpen secondFirst "10.0.0.5" 8000 8002 200000000
      (by decide) (by decide) (by decide)⟩

/-- C3, as the claim states it, fails: with endPort given as 0 the scan runs
to 65535, so a scan of the range 0..0 on a host where every port is open
returns port 80, which is outside [0, 0]. -/
theorem TCPScanner_zero_end_scans_all :
    ∃ l, TCPScanner allOpen firstEnabled "10.0.0.5" 0 0 200000000 = some (some l, none) ∧
      (80 : Int) ∈ l ∧ ¬ ((0 : Int) ≤ 80 ∧ (80 : Int) ≤ 0) := by
  obtain ⟨l, h1, _, h3⟩ := TCPScanner_ok allOpen firstEnabled "10.0.0.5"
    0 0 200000000 (by decide) (by decide) (by decide)
  refine ⟨l, h1, (h3 80).2 ⟨by decide, by decide, rfl⟩, by decide⟩

/-- C3, amended: for a non-empty host and `0 ≤ startPort ≤ endPort ≤ 65535`,
under every schedule `TCPScanner` returns a list whose every element lies
within `[startPort, E]`, where `E` is endPort, or 65535 when endPort is 0; so
within `[startPort, endPort]` whenever endPort is not 0. -/
theorem TCPScanner_within_range (dial : Dial) (sched : Nat → Nat) (host : String)
    (startPort endPort timeout : Int) (hh : host ≠ "") (h0 : 0 ≤ startPort)
    (hse : startPort ≤ endPort) (he : endPort ≤ 65535) :
    ∃ l, TCPScanner dial sched host startPort endPort timeout = some (some l, none) ∧
      (∀ p ∈ l, startPort ≤ p ∧ p ≤ lastPort endPort) ∧
      (endPort ≠ 0 → ∀ p ∈ l, startPort ≤ p ∧ p ≤ endPort) := by
  have hs : IsInt startPort := by unfold IsInt minInt maxInt; omega
  have hl : lastPort endPort < maxInt := by
    unfold lastPort maxInt
    split <;> omega
  obtain ⟨l, h1, _, h3⟩ := TCPScanner_ok dial sched host startPort endPort timeout hh hs hl
  refine ⟨l, h1, fun p hp => ⟨((h3 p).1 hp).1, ((h3 p).1 hp).2.1⟩, fun hne p hp => ?_⟩
  have := (h3 p).1 hp
  simp only [lastPort, hne, if_false] at this
  exact ⟨this.1, this.2.1⟩

theorem TCPScanner_within_range_witness :
    ("10.0.0.5" ≠ "" ∧ (0 : Int) ≤ 8000 ∧ (8000 : Int) ≤ 8002 ∧ (8002 : Int) ≤ 65535) ∧
      ∃ l, TCPScanner allOpen secondFirst "10.0.0.5" 8000 8002 200000000
          = some (some l, none) ∧
        (∀ p ∈ l, 8000 ≤ p ∧ p ≤ lastPort 8002) ∧
        ((8002 : Int) ≠ 0 → ∀ p ∈ l, 8000 ≤ p ∧ p ≤ 8002) :=
  ⟨⟨by decide, by decide, by decide, by decide⟩,
    TCPScanner_within_range allOpen secondFirst "10.0.0.5" 8000 8002 200000000
      (by decide) (by decide) (by decide) (by decide)⟩

/-- C4, as the claim states it, fails: when the probe of port 2 appends
before the probe of port 1, the scan of 1..2 returns `[2, 1]`, which is not
ascending. -/
theorem TCPScanner_insertion_order :
    TCPScanner allOpen secondFirst "10.0.0.5" 1 2 200000000 = some (some [2, 1], none) ∧
      ¬ List.Pairwise (fun a b : Int => a ≤ b) [2, 1] := by
  constructor
  · decide
  · decide

/-- C4, amended: for a non-empty host and every schedule, the list
`TCPScanner` returns is a permutation of the ascending list of the open
ports of `[startPort, E]` (it holds them in the order in which the probes
appended them); and the call does return unless endPort is the largest
int. -/
theorem TCPScanner_permutation (dial : Dial) (sched : Nat → Nat) (host : String)
    (startPort endPort timeout : Int) (hh : host ≠ "") (hs : IsInt startPort)
    (he : IsInt endPort) :
    (∀ r, TCPScanner dial sched host startPort endPort timeout = some r →
      ∃ l, r = (some l, none) ∧
        l.Perm (openPortsAscending dial host startPort (lastPort endPort) timeout) ∧
        (openPortsAscending dial host startPort (lastPort endPort) timeout).Pairwise
          (fun a b => a < b)) ∧
      (endPort ≠ maxInt →
        ∃ r, TCPScanner dial sched host startPort endPort timeout = some r) := by
  constructor
  · intro r hr
    obtain ⟨_, l, h1, _, _, h4⟩ := TCPScanner_result dial sched host startPort endPort timeout hh hs he hr
    exact ⟨l, h1, h4, pairwise_openPortsAscending _ _ _ _ _⟩
  · intro hm
    obtain ⟨l, h1, _⟩ := TCPScanner_ok dial sched host startPort endPort timeout hh hs (lastPort_lt_maxInt he hm)
    exact ⟨_, h1⟩

theorem TCPScanner_permutation_witness :
    ("10.0.0.5" ≠ "" ∧ IsInt 1 ∧ IsInt 2) ∧
      ((∀ r, TCPScanner allOpen secondFirst "10.0.0.5" 1 2 200000000 = some r →
        ∃ l, r = (some l, none) ∧
          l.Perm (openPortsAscending allOpen "10.0.0.5" 1 (lastPort 2) 200000000) ∧
          (openPortsAscending allOpen "10.0.0.5" 1 (lastPort 2) 200000000).Pairwise
            (fun a b => a < b)) ∧
        ((2 : Int) ≠ maxInt →
          ∃ r, TCPScanner allOpen secondFirst "10.0.0.5" 1 2 200000000 = some r)) :=
  ⟨⟨by decide, by decide, by decide⟩,
    TCPScanner_permutation allOpen secondFirst "10.0.0.5" 1 2 200000000
      (by decide) (by decide) (by decide)⟩

/-- C5: the claim says that for a non-empty host `TCPScanner` returns a port
list with a nil error for every endPort.  At endPort the largest int the code
does not: the loop test `port <= endPort` is always true (`port++` wraps), so
the call never returns, under any schedule and any probe outcome. -/
theorem TCPScanner_maxInt_never_returns :
    TCPScanner allClosed firstEnabled "10.0.0.5" 0 9223372036854775807 200000000 = none ∧
      ∀ (n : Nat) (dial : Dial) (sched : Nat → Nat),
        outcome (scanAfter n dial sched "10.0.0.5" 0 9223372036854775807 200000000) = none := by
  have key : ∀ (n : Nat) (dial : Dial) (sched : Nat → Nat),
      outcome (scanAfter n dial sched "10.0.0.5" 0 9223372036854775807 200000000) = none :=
    fun n dial sched => TCPScanner_never dial sched "10.0.0.5" 0 9223372036854775807
      200000000 (by decide) (by decide)
      (by decide) n
  exact ⟨key _ _ _, key⟩

/-- Away from the wrap of the loop counter `TCPScanner` fails only on the
empty host: for every non-empty host, every startPort, every endPort below
the largest int (so every port range within 0..65535), every timeout, probe
outcome and schedule it returns a non-nil port list with a nil error, and
when no probed port is open that list is empty. -/
theorem TCPScanner_fails_only_on_empty_host (dial : Dial) (sched : Nat → Nat)
    (host : String) (startPort endPort timeout : Int) (hh : host ≠ "")
    (hs : IsInt startPort) (he : IsInt endPort) (hm : endPort ≠ maxInt) :
    ∃ l, TCPScanner dial sched host startPort endPort timeout = some (some l, none) ∧
      ((∀ p, startPort ≤ p → p ≤ lastPort endPort → OpenPort dial host p timeout = false) →
        l = []) := by
  obtain ⟨l, h1, _, h3⟩ := TCPScanner_ok dial sched host startPort endPort timeout hh hs (lastPort_lt_maxInt he hm)
  refine ⟨l, h1, fun hclosed => ?_⟩
  apply List.eq_nil_iff_forall_not_mem.2
  intro p hp
  have := (h3 p).1 hp
  rw [hclosed p this.1 this.2.1] at this
  exact absurd this.2.2 (by simp)

theorem TCPScanner_fails_only_on_empty_host_witness :
    ("10.0.0.5" ≠ "" ∧ IsInt 8000 ∧ IsInt 8100 ∧ (8100 : Int) ≠ maxInt) ∧
      ∃ l, TCPScanner allClosed firstEnabled "10.0.0.5" 8000 8100 200000000
          = some (some l, none) ∧
        ((∀ p, 8000 ≤ p → p ≤ lastPort 8100 →
            OpenPort allClosed "10.0.0.5" p 200000000 = false) →
          l = []) :=
  ⟨⟨by decide, by decide, by decide, by decide⟩,
    TCPScanner_fails_only_on_empty_host allClosed firstEnabled "10.0.0.5" 8000 8100 200000000
      (by decide) (by decide) (by decide) (by decide)⟩

/-- C6: for every host and schedule, `ScanHost host` returns exactly what
`TCPScanner host 0 65535 (2 seconds)` returns; on the empty host that is the
nil list with the error, and in every case the call returns. -/
theorem ScanHost_is_TCPScanner (dial : Dial) (sched : Nat → Nat) (host : String) :
    ScanHost dial sched host = TCPScanner dial sched host 0 65535 (2 * Second) ∧
      ScanHost dial sched "" = some (none, some "No host to search") ∧
      (host = "" ∨ ∃ l, ScanHost dial sched host = some (some l, none)) := by
  refine ⟨ScanHost_eq dial sched host, ?_, ?_⟩
  · rw [ScanHost_eq, TCPScanner_empty]
  · by_cases hh : host = ""
    · exact Or.inl hh
    · right
      rw [ScanHost_eq]
      obtain ⟨l, hl, _⟩ := TCPScanner_ok dial sched host 0 65535
        (2 * Second) hh (by decide) (by decide)
      exact ⟨l, hl⟩

/-- C7: whenever `getLocalIPAddresses` succeeds on an interface table,
`MyIPAddresses` is, in interface order then address order, the list of the
dotted-decimal strings of exactly the addresses that convert to IPv4 and
belong to an interface that is up and not loopback. -/
theorem getLocalIPAddresses_success (interfaces : List Interface) (network : Network)
    (h : (getLocalIPAddresses (some interfaces) network).2 = none) :
    (getLocalIPAddresses (some interfaces) network).1.MyIPAddresses = localIPv4 interfaces := by
  rw [getLocalIPAddresses_eq] at h ⊢
  by_cases hany : interfaces.any (fun i => i.usable && i.Addrs.isNone) = true
  · simp [hany] at h
  · simp only [hany, Bool.false_eq_true, if_false] at h ⊢
    by_cases hl : localIPv4 interfaces = []
    · simp [hl] at h
    · simp [hl]

theorem getLocalIPAddresses_success_witness :
    (getLocalIPAddresses (some sampleInterfaces) ⟨[], []⟩).2 = none ∧
      (getLocalIPAddresses (some sampleInterfaces) ⟨[], []⟩).1.MyIPAddresses
        = localIPv4 sampleInterfaces ∧
      localIPv4 sampleInterfaces = ["192.168.1.10"] :=
  ⟨by decide, getLocalIPAddresses_success sampleInterfaces ⟨[], []⟩ (by decide), by decide⟩

/-- C8: `getLocalIPAddresses` returns an error exactly when the interface
query fails, or the address list of some up, non-loopback interface cannot
be retrieved (whatever the other interfaces yield), or no IPv4 address
remains after filtering; on an error the receiver is left as it was, and
otherwise the error is nil and a non-empty address list is stored. -/
theorem getLocalIPAddresses_errors (interfaces : Option (List Interface))
    (network : Network) :
    ((getLocalIPAddresses interfaces network).2 ≠ none ↔
        interfaces = none ∨
          ∃ ifs, interfaces = some ifs ∧
            ((∃ i ∈ ifs, i.usable = true ∧ i.Addrs = none) ∨ localIPv4 ifs = [])) ∧
      ((getLocalIPAddresses interfaces network).2 ≠ none →
        (getLocalIPAddresses interfaces network).1 = network) ∧
      ((getLocalIPAddresses interfaces network).2 = none →
        (getLocalIPAddresses interfaces network).1.MyIPAddresses ≠ []) := by
  cases interfaces with
  | none => simp [getLocalIPAddresses]
  | some ifs =>
    rw [getLocalIPAddresses_eq]
    by_cases hany : ifs.any (fun i => i.usable && i.Addrs.isNone) = true
    · have hex : ∃ i ∈ ifs, i.usable = true ∧ i.Addrs = none := by
        obtain ⟨i, hi, hp⟩ := List.any_eq_true.1 hany
        simp only [Bool.and_eq_true, Option.isNone_iff_eq_none] at hp
        exact ⟨i, hi, hp⟩
      simp only [hany, if_true]
      refine ⟨⟨fun _ => Or.inr ⟨ifs, rfl, Or.inl hex⟩, fun _ => by simp⟩, by simp, ?_⟩
      intro h
      simp at h
    · have hnex : ¬ ∃ i ∈ ifs, i.usable = true ∧ i.Addrs = none := by
        rintro ⟨i, hi, h1, h2⟩
        apply hany
        exact List.any_eq_true.2 ⟨i, hi, by simp [h1, h2]⟩
      simp only [hany, Bool.false_eq_true, if_false]
      by_cases hl : localIPv4 ifs = []
      · simp only [hl, if_true]
        refine ⟨⟨fun _ => Or.inr ⟨ifs, rfl, Or.inr hl⟩, fun _ => by simp⟩, by simp, ?_⟩
        intro h
        simp at h
      · simp only [hl, if_false]
        refine ⟨⟨fun h => absurd rfl h, ?_⟩, fun h => absurd rfl h, fun _ => hl⟩
        rintro (h | ⟨ifs', h1, h2 | h2⟩)
        · cases h
        · cases h1
          exact absurd h2 hnex
        · cases h1
          exact absurd h2 hl

/-- C9: for every outcome of interface discovery and of the port probes,
`NewNetwork` returns a network in which the keys of `IPsAndPorts` are exactly
the elements of `MyIPAddresses` and every value is a duplicate-free list of
integers in [0, 65535]; the hosts scanned are `MyIPAddresses`, so when
discovery fails no scan is performed and the mapping is empty. -/
theorem NewNetwork_invariant (interfaces : Option (List Interface)) (env : Nat → ScanEnv) :
    ∃ nw scanned, NewNetworkTrace interfaces env = some (nw, scanned) ∧
      NewNetwork interfaces env = some nw ∧
      (∀ a, a ∈ mapKeys nw.IPsAndPorts ↔ a ∈ nw.MyIPAddresses) ∧
      (∀ a v, (a, v) ∈ nw.IPsAndPorts →
        (IntSlice.elems v).Nodup ∧ ∀ p ∈ IntSlice.elems v, 0 ≤ p ∧ p ≤ 65535) ∧
      scanned = nw.MyIPAddresses ∧
      ((getLocalIPAddresses interfaces ⟨[], []⟩).2 = none ∨
        (scanned = [] ∧ nw.IPsAndPorts = [] ∧ nw.MyIPAddresses = [])) := by
  have hmap : (getLocalIPAddresses interfaces ⟨[], []⟩).1.IPsAndPorts = [] := by
    cases interfaces with
    | none => rfl
    | some ifs =>
      rw [getLocalIPAddresses_eq]
      split
      · rfl
      · split <;> rfl
  obtain ⟨nw', h1, h2, h3, h4⟩ := scanLoop_spec env
    (getLocalIPAddresses interfaces ⟨[], []⟩).1.MyIPAddresses 0
    (getLocalIPAddresses interfaces ⟨[], []⟩).1 [] (by rw [hmap]; simp)
  have htrace : NewNetworkTrace interfaces env
      = some (nw', (getLocalIPAddresses interfaces ⟨[], []⟩).1.MyIPAddresses) := by
    unfold NewNetworkTrace
    simpa using h1
  refine ⟨nw', _, htrace, ?_, ?_, h4, h2.symm, ?_⟩
  · unfold NewNetwork
    rw [htrace]
    rfl
  · intro a
    rw [h3 a, h2, hmap]
    simp [mapKeys]
  · by_cases herr : (getLocalIPAddresses interfaces ⟨[], []⟩).2 = none
    · exact Or.inl herr
    · right
      have hsame := getLocalIPAddresses_keeps interfaces ⟨[], []⟩ herr
      rw [hsame] at h1 h2 ⊢
      simp only [scanLoop, List.nil_append, Option.some.injEq, Prod.mk.injEq] at h1
      refine ⟨rfl, ?_, h2⟩
      rw [← h1.1]

/-- C10: in every state a `TCPScanner` call can reach, under any schedule:
the goroutines between `mutex.Lock()` and `mutex.Unlock()` (reading or
writing `ports` for the append, or about to unlock) are exactly the holder of
the mutex, so at most one goroutine is there; a step that changes `ports` is
taken by a goroutine that holds the mutex, and appends its port to the
current slice; a goroutine inside `OpenPort` does not hold the mutex; and
once the call has returned, every launched goroutine has finished. -/
theorem TCPScanner_mutual_exclusion (dial : Dial) (sched : Nat → Nat) (host : String)
    (startPort endPort timeout : Int) (n : Nat) :
    (∀ (i : Nat) (pr : Probe),
        (scanAfter n dial sched host startPort endPort timeout).probes[i]? = some pr →
        (critical pr.pc = true ↔
          (scanAfter n dial sched host startPort endPort timeout).mutex = some i)) ∧
      (∀ (i j : Nat) (pr q : Probe),
        (scanAfter n dial sched host startPort endPort timeout).probes[i]? = some pr →
        (scanAfter n dial sched host startPort endPort timeout).probes[j]? = some q →
        critical pr.pc = true → critical q.pc = true → i = j) ∧
      (∀ (t : Nat) (s' : ScanState),
        stepThread { dial := dial, host := host, endPort := lastPort endPort, timeout := timeout }
          (scanAfter n dial sched host startPort endPort timeout) t = some s' →
        s'.ports ≠ (scanAfter n dial sched host startPort endPort timeout).ports →
        ∃ (i : Nat) (pr : Probe), t = i + 1 ∧
          (scanAfter n dial sched host startPort endPort timeout).mutex = some i ∧
          (scanAfter n dial sched host startPort endPort timeout).probes[i]? = some pr ∧
          s'.ports = (scanAfter n dial sched host startPort endPort timeout).ports ++ [pr.port]) ∧
      (∀ (i : Nat) (pr : Probe),
        (scanAfter n dial sched host startPort endPort timeout).probes[i]? = some pr →
        pr.pc = .call →
        (scanAfter n dial sched host startPort endPort timeout).mutex ≠ some i) ∧
      (∀ r, outcome (scanAfter n dial sched host startPort endPort timeout) = some r →
        ∀ (i : Nat) (pr : Probe),
          (scanAfter n dial sched host startPort endPort timeout).probes[i]? = some pr →
          pr.pc = .exited) := by
  by_cases hh : host = ""
  · subst hh
    have hS : scanAfter n dial sched "" startPort endPort timeout
        = { main := .returned none (some "No host to search"), probes := [], ports := [],
            mutex := none, waitGroup := 0, dialed := [] } := by
      simp [scanAfter]
    rw [hS]
    refine ⟨by simp, by simp, ?_, by simp, by simp⟩
    intro t s' hstep
    cases t with
    | zero => simp [stepThread, stepMain] at hstep
    | succ i => simp [stepThread, stepProbe] at hstep
  · rw [scanAfter_eq hh]
    have h := sync_runFor
      { dial := dial, host := host, endPort := lastPort endPort, timeout := timeout }
      sched startPort n
    refine ⟨h.holder, ?_, ?_, ?_, ?_⟩
    · intro i j pr q hi hj hp hq
      have h1 := (h.holder i pr hi).1 hp
      have h2 := (h.holder j q hj).1 hq
      rw [h1] at h2
      exact Option.some.inj h2
    · intro t s' hstep hne
      cases t with
      | zero => exact absurd (ports_stepMain hstep) hne
      | succ i =>
        obtain ⟨h1, pr, h2, _, h4⟩ := ports_stepProbe h hstep hne
        exact ⟨i, pr, rfl, h1, h2, h4⟩
    · intro i pr hi hpc hmu
      have := (h.holder i pr hi).2 hmu
      rw [hpc] at this
      simp [critical] at this
    · intro r hr i pr hi
      have hret := h.ret
      unfold ReturnedOk at hret
      unfold outcome at hr
      cases hmain : (runFor
        { dial := dial, host := host, endPort := lastPort endPort, timeout := timeout }
        sched (scanInit startPort) n).main with
      | loop p => rw [hmain] at hr; simp at hr
      | wait => rw [hmain] at hr; simp at hr
      | returned ps err =>
        rw [hmain] at hret
        exact hret.2.2 i pr hi

end NetScan
